import Mathlib

/-!
The program `when`: the calendar difference between two instants.

A shallow embedding of `differenceFromNow` and `segments` from `main.go`,
together with the small part of Go's `time`, `fmt` and `strings` packages
that the two functions call.

* Go `int` and `time.Duration` values are modelled as `Int`.  The 64-bit width
  is observable in three places of the `time` package, all modelled: the
  internal seconds of an instant wrap, its absolute seconds wrap, and
  `Time.Sub` saturates.
* A Go slice is a `List Int`; indexing is fallible (`xs[i]?`), an index out of
  range (a run-time panic in Go) makes the embedded function return `none`.
* A `time.Time` is given by the Unix seconds it was made from, the nanosecond
  within that second and the offset of its (fixed) zone east of UTC; the
  internal and the absolute seconds that Go computes from them are `Time.ext`
  and `Time.abs`.
-/

namespace When

/-! ## The part of Go's `time` package used by the program -/

/-- An instant: Unix seconds, nanoseconds in `[0, 999999999]`, and the offset
in seconds east of UTC of the fixed zone its calendar fields are read in. -/
structure Time where
  sec : Int
  nsec : Int
  offset : Int
  deriving DecidableEq

/-- The instant `time.Unix(sec, 0)` read in UTC. -/
def Unix (sec : Int) : Time := { sec := sec, nsec := 0, offset := 0 }

/-- The nanoseconds since the Unix epoch, as an unbounded integer. -/
def Time.unixNano (t : Time) : Int := t.sec * 1000000000 + t.nsec

/-- The largest `time.Duration`, `1<<63 - 1` nanoseconds. -/
def maxDuration : Int := 9223372036854775807

/-- The smallest `time.Duration`, `-1 << 63` nanoseconds. -/
def minDuration : Int := -9223372036854775808

/-- The value of a 64-bit signed integer after an overflowing operation whose
exact result is `x`. -/
def wrapInt64 (x : Int) : Int :=
  (x + 9223372036854775808) % 18446744073709551616 - 9223372036854775808

/-- Go's `unixToInternal`: the seconds from 1 January of year 1 to the Unix
epoch. -/
def unixToInternal : Int := 62135596800

/-- Go's `unixToAbsolute`: the seconds from the absolute epoch, 1 March of year
-292277022400, to the Unix epoch. -/
def unixToAbsolute : Int := 9223372028741760000

/-- The internal seconds of `t` (the field `ext` of `time.Unix(sec, nsec)`): a
64-bit sum, which wraps for Unix seconds from 9223371974719179008 on. -/
def Time.ext (t : Time) : Int := wrapInt64 (t.sec + unixToInternal)

/-- The test `t.Before(u)`, on the internal seconds and the nanoseconds. -/
def Time.Before (t u : Time) : Bool :=
  decide (t.ext < u.ext) || (decide (t.ext = u.ext) && decide (t.nsec < u.nsec))

/-- The duration `t.Sub(u)` in nanoseconds: the difference of the internal
seconds and the nanoseconds when it fits a 64-bit `Duration`; otherwise the
minimum duration when `t.Before(u)` and the maximum duration when not. -/
def Time.Sub (t u : Time) : Int :=
  let d := (t.ext - u.ext) * 1000000000 + (t.nsec - u.nsec)
  if minDuration ≤ d ∧ d ≤ maxDuration then d
  else if t.Before u then minDuration
  else maxDuration

/-- The absolute seconds of `t` in its zone (`t.abs()`): an unsigned 64-bit
sum, which wraps for Unix seconds below -9223372028741760000 in UTC. -/
def Time.abs (t : Time) : Int :=
  (t.sec + t.offset + unixToAbsolute) % 18446744073709551616

/-- Days since 1970-01-01 of the calendar day of `t`: the absolute days less
the 106751991073400 days from the absolute epoch to the Unix epoch. -/
def Time.days (t : Time) : Int := t.abs / 86400 - 106751991073400

/-- The proleptic Gregorian (year, month, day) of a day counted from
1970-01-01, by 400-year eras that start on 1 March. -/
def civil (days : Int) : Int × Int × Int :=
  let z := days + 719468
  let era := z / 146097
  let doe := z - era * 146097
  let yoe := (doe - doe / 1460 + doe / 36524 - doe / 146096) / 365
  let doy := doe - (365 * yoe + yoe / 4 - yoe / 100)
  let mp := (5 * doy + 2) / 153
  let d := doy - (153 * mp + 2) / 5 + 1
  let m := if mp < 10 then mp + 3 else mp - 9
  let y := yoe + era * 400
  (if m ≤ 2 then y + 1 else y, m, d)

/-- The year in which `t` occurs. -/
def Time.Year (t : Time) : Int := (civil t.days).1

/-- The month of the year of `t`, 1 to 12. -/
def Time.Month (t : Time) : Int := (civil t.days).2.1

/-- The day of the month of `t`. -/
def Time.Day (t : Time) : Int := (civil t.days).2.2

/-- The hour within the day of `t`, 0 to 23. -/
def Time.Hour (t : Time) : Int := t.abs % 86400 / 3600

/-- The minute within the hour of `t`, 0 to 59. -/
def Time.Minute (t : Time) : Int := t.abs % 3600 / 60

/-- The second within the minute of `t`, 0 to 59. -/
def Time.Second (t : Time) : Int := t.abs % 60

/-- Whether `year` is a Gregorian leap year. -/
def isLeap (year : Int) : Bool :=
  year % 4 == 0 && (year % 100 != 0 || year % 400 == 0)

/-- The number of days in a non-leap year before month `m + 1` starts
(`m` from 0 to 11), Go's table `daysBefore`. -/
def daysBefore (m : Int) : Int :=
  match m with
  | 0 => 0
  | 1 => 31
  | 2 => 59
  | 3 => 90
  | 4 => 120
  | 5 => 151
  | 6 => 181
  | 7 => 212
  | 8 => 243
  | 9 => 273
  | 10 => 304
  | 11 => 334
  | _ => 365

/-- Days from 1970-01-01 to 1 January of `year`. -/
def daysSinceEpoch (year : Int) : Int :=
  let y := year - 1
  365 * (year - 1970) + (y / 4 - y / 100 + y / 400) - 477

/-- The instant `time.Date(year, month, day, hour, min, sec, 0, time.UTC)`.
The month is normalised into 1..12 with the overflow carried into the year;
seconds, minutes, hours and the day overflow into the day count. -/
def Date (year month day hour min sec : Int) : Time :=
  let m := month - 1
  let year := year + m / 12
  let m := m % 12
  let d := daysSinceEpoch year + daysBefore m
    + (if isLeap year && decide (2 ≤ m) then 1 else 0) + (day - 1)
  { sec := d * 86400 + hour * 3600 + min * 60 + sec, nsec := 0, offset := 0 }

/-! ## The part of `fmt` and `strings` used by the program -/

/-- The text of `fmt.Sprintf("%d %s", v, label)`. -/
def Sprintf (v : Int) (label : String) : String :=
  toString v ++ " " ++ label

/-- The text of `strings.Join(elems, sep)`. -/
def Join (elems : List String) (sep : String) : String :=
  match elems with
  | [] => ""
  | e :: rest => rest.foldl (fun acc x => acc ++ sep ++ x) e

/-- The test `strings.HasSuffix(s, suffix)`. -/
def HasSuffix (s suffix : String) : Bool :=
  suffix.data.isSuffixOf s.data

/-! ## `main.go` -/

/-- The interface `clock`: a source of the current instant. -/
structure clock where
  Now : Time

/-- The function `segments` (main.go:129-131): the six calendar fields
year, month, day, hour, minute, second of an instant. -/
def segments (t : Time) : List Int :=
  [t.Year, t.Month, t.Day, t.Hour, t.Minute, t.Second]

/-- The local variables of `differenceFromNow` between lines 61 and 102. -/
structure Vars where
  start : List Int
  end_ : List Int
  seconds : Int
  minutes : Int
  hours : Int
  days : Int
  months : Int
  years : Int
  deriving DecidableEq

/-- Line 70: `var seconds, minutes, hours, days, months, years int`. -/
def Vars.init (start end_ : List Int) : Vars :=
  { start := start, end_ := end_, seconds := 0, minutes := 0, hours := 0,
    days := 0, months := 0, years := 0 }

/-- Lines 71-75: the seconds, borrowing from `end[4]`. -/
def stepSeconds (v : Vars) : Option Vars := do
  let e5 ← v.end_[5]?
  let s5 ← v.start[5]?
  let seconds := e5 - s5
  if seconds < 0 then
    let e4 ← v.end_[4]?
    pure { v with seconds := seconds + 60, end_ := v.end_.set 4 (e4 - 1) }
  else
    pure { v with seconds := seconds }

/-- Lines 77-81: the minutes, borrowing from `end[3]`. -/
def stepMinutes (v : Vars) : Option Vars := do
  let e4 ← v.end_[4]?
  let s4 ← v.start[4]?
  let minutes := e4 - s4
  if minutes < 0 then
    let e3 ← v.end_[3]?
    pure { v with minutes := minutes + 60, end_ := v.end_.set 3 (e3 - 1) }
  else
    pure { v with minutes := minutes }

/-- Lines 83-87: the hours, borrowing from `end[2]`. -/
def stepHours (v : Vars) : Option Vars := do
  let e3 ← v.end_[3]?
  let s3 ← v.start[3]?
  let hours := e3 - s3
  if hours < 0 then
    let e2 ← v.end_[2]?
    pure { v with hours := hours + 24, end_ := v.end_.set 2 (e2 - 1) }
  else
    pure { v with hours := hours }

/-- Lines 89-94: the days; a negative difference is raised by the length of
the month before `end[1]` in year `end[0]`, and `end[1]` is left as it is. -/
def stepDays (v : Vars) : Option Vars := do
  let e2 ← v.end_[2]?
  let s2 ← v.start[2]?
  let days := e2 - s2
  if days < 0 then
    let e0 ← v.end_[0]?
    let e1 ← v.end_[1]?
    let monthDays := (Date e0 e1 0 0 0 0).Day
    pure { v with days := days + monthDays }
  else
    pure { v with days := days }

/-- Lines 96-100: the months, borrowing from `end[0]`. -/
def stepMonths (v : Vars) : Option Vars := do
  let e1 ← v.end_[1]?
  let s1 ← v.start[1]?
  let months := e1 - s1
  if months < 0 then
    let e0 ← v.end_[0]?
    pure { v with months := months + 12, end_ := v.end_.set 0 (e0 - 1) }
  else
    pure { v with months := months }

/-- Line 102: the years. -/
def stepYears (v : Vars) : Option Vars := do
  let e0 ← v.end_[0]?
  let s0 ← v.start[0]?
  pure { v with years := e0 - s0 }

/-- Lines 70-87: the three time-of-day steps, in the order of the source. -/
def borrowClock (start end_ : List Int) : Option Vars :=
  stepSeconds (Vars.init start end_) >>= stepMinutes >>= stepHours

/-- Lines 70-102: all six steps, in the order of the source. -/
def borrow (start end_ : List Int) : Option Vars :=
  borrowClock start end_ >>= stepDays >>= stepMonths >>= stepYears

/-- Line 105: the unit names. -/
def labels : List String := ["year", "month", "day", "hour", "minute", "second"]

/-- Line 106: the values in the order of the labels. -/
def Vars.values (v : Vars) : List Int :=
  [v.years, v.months, v.days, v.hours, v.minutes, v.seconds]

/-- Lines 111-114: the text of one field whose value is positive. -/
def diffString (value : Int) (label : String) : String :=
  let s := Sprintf value label
  if value > 1 then s ++ "s" else s

/-- Lines 108-117: the loop `for i := 0; i < len(labels); i++` run from
index `i` with the fragments collected so far; `fuel` bounds the number of
times the loop condition is evaluated. -/
def diffStringsLoop (labels : List String) (values : List Int) :
    Nat → Nat → List String → Option (List String)
  | 0, _, _ => none
  | fuel + 1, i, diffStrings =>
    if i < labels.length then do
      let value ← values[i]?
      if value > 0 then
        let label ← labels[i]?
        diffStringsLoop labels values fuel (i + 1)
          (diffStrings ++ [diffString value label])
      else
        diffStringsLoop labels values fuel (i + 1) diffStrings
    else
      pure diffStrings

/-- Lines 104-125: the rendering of the values and the direction. -/
def render (values : List Int) (past : Bool) : Option String := do
  let diffStrings ← diffStringsLoop labels values (labels.length + 1) 0 []
  let readout := Join diffStrings ", "
  if past then pure (readout ++ " ago") else pure (readout ++ " in the future")

/-- Lines 60-66: the direction and the two segment lists `(start, end)`. -/
def direction (then_ now : Time) : Bool × List Int × List Int :=
  let diff := now.Sub then_
  let past := decide (diff > 0)
  if past then (past, segments then_, segments now)
  else (past, segments now, segments then_)

/-- The function `differenceFromNow` (main.go:51-126). -/
def differenceFromNow (then_ : Time) (c : clock) : Option String :=
  let now := c.Now
  let diff := now.Sub then_
  if diff > -1000000000 ∧ diff < 1000000000 then
    pure "now"
  else do
    let (past, start, end_) := direction then_ now
    let v ← borrow start end_
    render v.values past

/-- The six values `years, months, days, hours, minutes, seconds` that
`differenceFromNow` renders (lines 52-106), when it gets past the check of
line 56. -/
def breakdown (then_ : Time) (c : clock) : Option Vars :=
  let (_, start, end_) := direction then_ c.Now
  borrow start end_

/-! ## The rendering as section 4.1, step 4, words it -/

/-- The unit name in the grammatical number that fits the value: with a
trailing `s` when the value is greater than one. -/
def unitName (value : Int) (label : String) : String :=
  if value > 1 then label ++ "s" else label

/-- The fragment `<value> <unit>` of one field. -/
def fragment (value : Int) (label : String) : String :=
  toString value ++ " " ++ unitName value label

/-- The fragments of the pairs (unit, value) whose value is positive, in the
order of the pairs. -/
def fragments (pairs : List (String × Int)) : List String :=
  (pairs.filter (fun p => decide (p.2 > 0))).map (fun p => fragment p.2 p.1)

/-- The phrase before the direction: the fragments of the fields whose value
is positive, in the order of `labels`, joined by a comma and a blank. -/
def phrase (values : List Int) : String :=
  ", ".intercalate (fragments (labels.zip values))

/-- The time of day of an instant in seconds, from its calendar fields. -/
def Time.clockSeconds (t : Time) : Int :=
  3600 * t.Hour + 60 * t.Minute + t.Second

/-! ## The calendar in the words of the claims -/

/-- The number of days of a calendar month: 29 for February of a Gregorian
leap year, 28 otherwise; 30 for April, June, September and November; 31 for
the other months. -/
def daysIn (year month : Int) : Int :=
  if month = 2 then (if isLeap year then 29 else 28)
  else if month = 4 ∨ month = 6 ∨ month = 9 ∨ month = 11 then 30
  else 31

/-- The number of days of the calendar month immediately before `month` of
`year`: December, 31 days, when `month` is January. -/
def prevMonthLength (year month : Int) : Int :=
  if month = 1 then 31 else daysIn year (month - 1)

/-- The index of a calendar month, counted in months from March of year 0. -/
def monthIndex (year month : Int) : Int := 12 * year + month - 3

/-- The day number, counted from 1 March of year 0, of the first day of the
month with index `M`. -/
def monthStart (M : Int) : Int :=
  let Y := M / 12
  let mp := M % 12
  365 * Y + Y / 4 - Y / 100 + Y / 400 + (153 * mp + 2) / 5

/-- An instant whose nanoseconds lie within the second. -/
def Time.valid (t : Time) : Prop := 0 ≤ t.nsec ∧ t.nsec < 1000000000

/-- An instant made from a 64-bit Unix second whose internal seconds do not
wrap: its Unix seconds lie from -9223372036854775808 to 9223371974719179007. -/
def Time.extInRange (t : Time) : Prop :=
  -9223372036854775808 ≤ t.sec ∧ t.sec + unixToInternal ≤ 9223372036854775807

/-- An instant whose absolute seconds do not wrap: its Unix seconds, shifted
into its zone, lie from -9223372028741760000 to 9223372044967791615. -/
def Time.absInRange (t : Time) : Prop :=
  0 ≤ t.sec + t.offset + unixToAbsolute
    ∧ t.sec + t.offset + unixToAbsolute < 18446744073709551616

/-! ## Lemmas on the borrow steps -/

theorem segments_length (t : Time) : (segments t).length = 6 := rfl

theorem stepSeconds_six (s0 s1 s2 s3 s4 s5 e0 e1 e2 e3 e4 e5 a b c d e f : Int) :
    stepSeconds ⟨[s0, s1, s2, s3, s4, s5], [e0, e1, e2, e3, e4, e5], a, b, c, d, e, f⟩
      = some ⟨[s0, s1, s2, s3, s4, s5],
          [e0, e1, e2, e3, if e5 - s5 < 0 then e4 - 1 else e4, e5],
          if e5 - s5 < 0 then e5 - s5 + 60 else e5 - s5, b, c, d, e, f⟩ := by
  simp only [stepSeconds]
  split_ifs <;> simp <;> omega

theorem stepMinutes_six (s0 s1 s2 s3 s4 s5 e0 e1 e2 e3 e4 e5 a b c d e f : Int) :
    stepMinutes ⟨[s0, s1, s2, s3, s4, s5], [e0, e1, e2, e3, e4, e5], a, b, c, d, e, f⟩
      = some ⟨[s0, s1, s2, s3, s4, s5],
          [e0, e1, e2, if e4 - s4 < 0 then e3 - 1 else e3, e4, e5],
          a, if e4 - s4 < 0 then e4 - s4 + 60 else e4 - s4, c, d, e, f⟩ := by
  simp only [stepMinutes]
  split_ifs <;> simp <;> omega

theorem stepHours_six (s0 s1 s2 s3 s4 s5 e0 e1 e2 e3 e4 e5 a b c d e f : Int) :
    stepHours ⟨[s0, s1, s2, s3, s4, s5], [e0, e1, e2, e3, e4, e5], a, b, c, d, e, f⟩
      = some ⟨[s0, s1, s2, s3, s4, s5],
          [e0, e1, if e3 - s3 < 0 then e2 - 1 else e2, e3, e4, e5],
          a, b, if e3 - s3 < 0 then e3 - s3 + 24 else e3 - s3, d, e, f⟩ := by
  simp only [stepHours]
  split_ifs <;> simp <;> omega

theorem stepDays_six (s0 s1 s2 s3 s4 s5 e0 e1 e2 e3 e4 e5 a b c d e f : Int) :
    stepDays ⟨[s0, s1, s2, s3, s4, s5], [e0, e1, e2, e3, e4, e5], a, b, c, d, e, f⟩
      = some ⟨[s0, s1, s2, s3, s4, s5], [e0, e1, e2, e3, e4, e5],
          a, b, c, if e2 - s2 < 0 then e2 - s2 + (Date e0 e1 0 0 0 0).Day else e2 - s2,
          e, f⟩ := by
  simp only [stepDays]
  split_ifs <;> simp <;> omega

theorem stepMonths_six (s0 s1 s2 s3 s4 s5 e0 e1 e2 e3 e4 e5 a b c d e f : Int) :
    stepMonths ⟨[s0, s1, s2, s3, s4, s5], [e0, e1, e2, e3, e4, e5], a, b, c, d, e, f⟩
      = some ⟨[s0, s1, s2, s3, s4, s5],
          [if e1 - s1 < 0 then e0 - 1 else e0, e1, e2, e3, e4, e5],
          a, b, c, d, if e1 - s1 < 0 then e1 - s1 + 12 else e1 - s1, f⟩ := by
  simp only [stepMonths]
  split_ifs <;> simp <;> omega

theorem stepYears_six (s0 s1 s2 s3 s4 s5 e0 e1 e2 e3 e4 e5 a b c d e f : Int) :
    stepYears ⟨[s0, s1, s2, s3, s4, s5], [e0, e1, e2, e3, e4, e5], a, b, c, d, e, f⟩
      = some ⟨[s0, s1, s2, s3, s4, s5], [e0, e1, e2, e3, e4, e5],
          a, b, c, d, e, e0 - s0⟩ := by
  simp [stepYears]

/-- The state after the three time-of-day steps on two lists of six fields. -/
theorem borrowClock_six (s0 s1 s2 s3 s4 s5 e0 e1 e2 e3 e4 e5 : Int) :
    borrowClock [s0, s1, s2, s3, s4, s5] [e0, e1, e2, e3, e4, e5] =
      some
        ⟨[s0, s1, s2, s3, s4, s5],
         [e0, e1,
          if (if (if e5 - s5 < 0 then e4 - 1 else e4) - s4 < 0 then e3 - 1 else e3) - s3 < 0
            then e2 - 1 else e2,
          if (if e5 - s5 < 0 then e4 - 1 else e4) - s4 < 0 then e3 - 1 else e3,
          if e5 - s5 < 0 then e4 - 1 else e4, e5],
         if e5 - s5 < 0 then e5 - s5 + 60 else e5 - s5,
         if (if e5 - s5 < 0 then e4 - 1 else e4) - s4 < 0
           then (if e5 - s5 < 0 then e4 - 1 else e4) - s4 + 60
           else (if e5 - s5 < 0 then e4 - 1 else e4) - s4,
         if (if (if e5 - s5 < 0 then e4 - 1 else e4) - s4 < 0 then e3 - 1 else e3) - s3 < 0
           then (if (if e5 - s5 < 0 then e4 - 1 else e4) - s4 < 0 then e3 - 1 else e3) - s3 + 24
           else (if (if e5 - s5 < 0 then e4 - 1 else e4) - s4 < 0 then e3 - 1 else e3) - s3,
         0, 0, 0⟩ := by
  simp only [borrowClock, Vars.init, stepSeconds_six, stepMinutes_six, stepHours_six,
    Option.bind_eq_bind, Option.some_bind]

/-- All six steps succeed on two lists of six fields. -/
theorem borrow_six (s0 s1 s2 s3 s4 s5 e0 e1 e2 e3 e4 e5 : Int) :
    ∃ v, borrow [s0, s1, s2, s3, s4, s5] [e0, e1, e2, e3, e4, e5] = some v := by
  simp only [borrow, borrowClock_six, stepDays_six, stepMonths_six, stepYears_six,
    Option.bind_eq_bind, Option.some_bind]
  exact ⟨_, rfl⟩

theorem borrow_segments (a b : Time) : ∃ v, borrow (segments a) (segments b) = some v :=
  borrow_six _ _ _ _ _ _ _ _ _ _ _ _

/-! ## Lemmas on the rendering -/

theorem diffString_eq_fragment (value : Int) (label : String) :
    diffString value label = fragment value label := by
  unfold diffString fragment unitName Sprintf
  split_ifs <;> simp [String.append_assoc]

theorem intercalate_go_eq_foldl (sep : String) (rest : List String) (acc : String) :
    String.intercalate.go acc sep rest = rest.foldl (fun a x => a ++ sep ++ x) acc := by
  induction rest generalizing acc with
  | nil => rfl
  | cons x xs ih => simp [String.intercalate.go, ih]

theorem Join_eq_intercalate (elems : List String) (sep : String) :
    Join elems sep = sep.intercalate elems := by
  cases elems with
  | nil => rfl
  | cons e rest => simp [Join, String.intercalate, intercalate_go_eq_foldl]

/-- The loop of lines 109-117, started at index `i` with enough fuel, appends
the fragments of the positive fields from index `i` on. -/
theorem diffStringsLoop_eq (labels : List String) (values : List Int)
    (hlen : labels.length ≤ values.length) :
    ∀ (fuel i : Nat) (acc : List String), labels.length - i < fuel →
      diffStringsLoop labels values fuel i acc
        = some (acc ++ fragments ((labels.zip values).drop i)) := by
  intro fuel
  induction fuel with
  | zero =>
    intro i acc h
    omega
  | succ n ih =>
    intro i acc h
    unfold diffStringsLoop
    by_cases hi : i < labels.length
    · have hv : i < values.length := by omega
      have hz : i < (labels.zip values).length := by simp [List.length_zip]; omega
      rw [if_pos hi, List.drop_eq_getElem_cons hz]
      simp only [List.getElem?_eq_getElem hv, List.getElem?_eq_getElem hi,
        Option.bind_eq_bind, Option.some_bind, List.getElem_zip]
      by_cases hp : values[i] > 0
      · rw [if_pos hp, ih (i + 1) _ (by omega)]
        simp [fragments, hp, diffString_eq_fragment]
      · rw [if_neg hp, ih (i + 1) _ (by omega)]
        simp [fragments, hp]
    · have hz : (labels.zip values).drop i = [] := by
        apply List.drop_eq_nil_of_le
        simp [List.length_zip]; omega
      rw [if_neg hi, hz]
      simp [fragments]

theorem render_eq (values : List Int) (past : Bool) (h : values.length = 6) :
    render values past
      = some (phrase values ++ (if past then " ago" else " in the future")) := by
  have hl : labels.length ≤ values.length := by simp [labels, h]
  unfold render
  rw [diffStringsLoop_eq labels values hl _ 0 [] (by omega)]
  cases past <;> simp [Join_eq_intercalate, phrase]

/-! ## Lemmas on `Time.Sub` and on suffixes -/

theorem ext_of_extInRange (t : Time) (h : t.extInRange) :
    t.ext = t.sec + unixToInternal := by
  unfold Time.extInRange unixToInternal at h
  unfold Time.ext wrapInt64 unixToInternal
  omega

/-- Inside the range of the internal seconds, `t.Sub(u)` is the difference of
the Unix nanoseconds cut to the range of a `Duration`. -/
theorem Sub_of_extInRange (t u : Time) (ht : t.extInRange) (hu : u.extInRange)
    (vt : t.valid) (vu : u.valid) :
    t.Sub u = if minDuration ≤ t.unixNano - u.unixNano
          ∧ t.unixNano - u.unixNano ≤ maxDuration then t.unixNano - u.unixNano
        else if t.unixNano < u.unixNano then minDuration else maxDuration := by
  have e : (t.ext - u.ext) * 1000000000 + (t.nsec - u.nsec) = t.unixNano - u.unixNano := by
    rw [ext_of_extInRange t ht, ext_of_extInRange u hu]
    unfold Time.unixNano
    ring
  unfold Time.Sub
  simp only [e]
  by_cases hfit : minDuration ≤ t.unixNano - u.unixNano
      ∧ t.unixNano - u.unixNano ≤ maxDuration
  · simp only [if_pos hfit]
  · simp only [if_neg hfit]
    have hb : t.Before u = true ↔ t.unixNano < u.unixNano := by
      unfold Time.Before
      rw [ext_of_extInRange t ht, ext_of_extInRange u hu]
      unfold Time.valid at vt vu
      unfold Time.unixNano
      simp only [Bool.or_eq_true, Bool.and_eq_true, decide_eq_true_eq]
      omega
    by_cases hlt : t.unixNano < u.unixNano
    · rw [if_pos (hb.mpr hlt), if_pos hlt]
    · have hnb : ¬ t.Before u = true := fun h => hlt (hb.mp h)
      rw [if_neg hnb, if_neg hlt]

theorem Sub_small (t u : Time) (ht : t.extInRange) (hu : u.extInRange)
    (hlo : -1000000000 < t.unixNano - u.unixNano)
    (hhi : t.unixNano - u.unixNano < 1000000000) :
    t.Sub u = t.unixNano - u.unixNano := by
  have e : (t.ext - u.ext) * 1000000000 + (t.nsec - u.nsec) = t.unixNano - u.unixNano := by
    rw [ext_of_extInRange t ht, ext_of_extInRange u hu]
    unfold Time.unixNano
    ring
  unfold Time.Sub
  simp only [e]
  rw [if_pos]
  unfold minDuration maxDuration
  omega

theorem Sub_pos_iff (t u : Time) (ht : t.extInRange) (hu : u.extInRange)
    (vt : t.valid) (vu : u.valid) : t.Sub u > 0 ↔ u.unixNano < t.unixNano := by
  rw [Sub_of_extInRange t u ht hu vt vu]
  unfold minDuration maxDuration
  split_ifs <;> omega

theorem Sub_lt_second_iff (t u : Time) (ht : t.extInRange) (hu : u.extInRange)
    (vt : t.valid) (vu : u.valid) :
    t.Sub u < 1000000000 ↔ t.unixNano - u.unixNano < 1000000000 := by
  rw [Sub_of_extInRange t u ht hu vt vu]
  unfold minDuration maxDuration
  split_ifs <;> omega

theorem Sub_gt_neg_second_iff (t u : Time) (ht : t.extInRange) (hu : u.extInRange)
    (vt : t.valid) (vu : u.valid) :
    t.Sub u > -1000000000 ↔ t.unixNano - u.unixNano > -1000000000 := by
  rw [Sub_of_extInRange t u ht hu vt vu]
  unfold minDuration maxDuration
  split_ifs <;> omega

theorem HasSuffix_append (r x : String) : HasSuffix (r ++ x) x = true := by
  simp [HasSuffix]

theorem HasSuffix_ago_future (r : String) :
    HasSuffix (r ++ " ago") " in the future" = false := by
  simp only [HasSuffix, Bool.eq_false_iff, ne_eq, List.isSuffixOf_iff_suffix,
    String.data_append]
  intro h
  have h2 := List.reverse_prefix.mpr h
  simp only [List.reverse_append] at h2
  have h3 : (" in the future".data.reverse).head? = ((" ago".data.reverse ++ r.data.reverse)).head? := by
    obtain ⟨t, ht⟩ := h2
    rw [← ht]
    rfl
  have h4 : (" ago".data.reverse ++ r.data.reverse).head? = some 'o' := rfl
  rw [h4] at h3
  revert h3
  decide

theorem ne_append_s (x : String) : x ≠ x ++ "s" := by
  intro h
  have h2 := congrArg String.data h
  rw [String.data_append, List.self_eq_append_right] at h2
  revert h2
  decide

theorem append_ago_ne_now (r : String) : r ++ " ago" ≠ "now" := by
  intro h
  have h1 := HasSuffix_append r " ago"
  rw [h] at h1
  revert h1
  decide

theorem append_future_ne_now (r : String) : r ++ " in the future" ≠ "now" := by
  intro h
  have h1 := HasSuffix_append r " in the future"
  rw [h] at h1
  revert h1
  decide

/-- Past the check of line 56 the result is the phrase of the six values
followed by the direction. -/
theorem differenceFromNow_eq (then_ : Time) (c : clock)
    (h : ¬ (c.Now.Sub then_ > -1000000000 ∧ c.Now.Sub then_ < 1000000000)) :
    ∃ v, breakdown then_ c = some v ∧
      differenceFromNow then_ c
        = some (phrase v.values ++ (if c.Now.Sub then_ > 0 then " ago" else " in the future")) := by
  unfold differenceFromNow breakdown direction
  simp only [if_neg h]
  by_cases hp : c.Now.Sub then_ > 0
  · obtain ⟨v, hv⟩ := borrow_segments then_ c.Now
    refine ⟨v, by simp [hp, hv], ?_⟩
    simp [hp, hv, render_eq, Vars.values]
  · obtain ⟨v, hv⟩ := borrow_segments c.Now then_
    refine ⟨v, by simp [hp, hv], ?_⟩
    simp [hp, hv, render_eq, Vars.values]

/-! ## Lemmas on the time of day -/

theorem Hour_range (t : Time) : 0 ≤ t.Hour ∧ t.Hour ≤ 23 := by
  unfold Time.Hour
  omega

theorem Minute_range (t : Time) : 0 ≤ t.Minute ∧ t.Minute ≤ 59 := by
  unfold Time.Minute
  omega

theorem Second_range (t : Time) : 0 ≤ t.Second ∧ t.Second ≤ 59 := by
  unfold Time.Second
  omega

theorem clockSeconds_eq (t : Time) : t.clockSeconds = t.abs % 86400 := by
  unfold Time.clockSeconds Time.Hour Time.Minute Time.Second
  omega

/-- The three time-of-day steps on fields in the ranges of a clock. -/
theorem borrowClock_fields (s0 s1 s2 s3 s4 s5 e0 e1 e2 e3 e4 e5 : Int)
    (a1 : 0 ≤ s3) (a2 : s3 ≤ 23) (a3 : 0 ≤ s4) (a4 : s4 ≤ 59) (a5 : 0 ≤ s5) (a6 : s5 ≤ 59)
    (b1 : 0 ≤ e3) (b2 : e3 ≤ 23) (b3 : 0 ≤ e4) (b4 : e4 ≤ 59) (b5 : 0 ≤ e5) (b6 : e5 ≤ 59) :
    ∃ v, borrowClock [s0, s1, s2, s3, s4, s5] [e0, e1, e2, e3, e4, e5] = some v
      ∧ 0 ≤ v.seconds ∧ v.seconds ≤ 59
      ∧ 0 ≤ v.minutes ∧ v.minutes ≤ 59
      ∧ 0 ≤ v.hours ∧ v.hours ≤ 23
      ∧ 3600 * v.hours + 60 * v.minutes + v.seconds
          = (3600 * e3 + 60 * e4 + e5 - (3600 * s3 + 60 * s4 + s5)) % 86400
      ∧ v.end_[2]? = some
          (if 3600 * e3 + 60 * e4 + e5 < 3600 * s3 + 60 * s4 + s5 then e2 - 1 else e2)
      ∧ ∃ w, borrow [s0, s1, s2, s3, s4, s5] [e0, e1, e2, e3, e4, e5] = some w
          ∧ w.seconds = v.seconds ∧ w.minutes = v.minutes ∧ w.hours = v.hours := by
  simp only [borrow, borrowClock_six, stepDays_six, stepMonths_six, stepYears_six,
    Option.bind_eq_bind, Option.some_bind]
  refine ⟨_, rfl, ?_⟩
  simp only [List.getElem?_cons_succ, List.getElem?_cons_zero, Option.some.injEq,
    exists_eq_left']
  refine ⟨?_, ?_, ?_, ?_, ?_, ?_, ?_, ?_, ?_⟩ <;> first | exact ⟨trivial, trivial, trivial⟩ | (split_ifs <;> omega)


/-! ## Lemmas on the calendar -/

/-- The year of the era computed by `civil` is the year whose days contain the
day of the era. -/
theorem yoe_bounds (doe : Int) (h0 : 0 ≤ doe) (h1 : doe ≤ 146096) :
    let yoe := (doe - doe / 1460 + doe / 36524 - doe / 146096) / 365
    0 ≤ yoe ∧ yoe ≤ 399 ∧ 365 * yoe + yoe / 4 - yoe / 100 ≤ doe
      ∧ doe < 365 * (yoe + 1) + (yoe + 1) / 4 - (yoe + 1) / 100 + (yoe + 1) / 400 := by
  intro yoe
  obtain ⟨f0, hf0⟩ : ∃ f0, f0 = doe / 36524 - doe / 146096 := ⟨_, rfl⟩
  have hf0r : 0 ≤ f0 ∧ f0 ≤ 3 := by omega
  obtain ⟨q, hq⟩ : ∃ q, q = (doe - 36524 * f0) / 1461 := ⟨_, rfl⟩
  obtain ⟨s, hs⟩ : ∃ s, s = (doe - 36524 * f0) % 1461 := ⟨_, rfl⟩
  have hr : 0 ≤ doe - 36524 * f0 ∧ doe - 36524 * f0 ≤ 36524 := by omega
  have hr3 : f0 ≤ 2 → doe - 36524 * f0 ≤ 36523 := by omega
  have hs3 : q = 24 → f0 ≤ 2 → (doe - 36524 * f0) % 1461 ≤ 1459 := by omega
  have hqr : 0 ≤ q ∧ q ≤ 24 := by omega
  have hsr : 0 ≤ s ∧ s ≤ 1460 := by omega
  have ha : doe = 36524 * f0 + 1461 * q + s := by omega
  rw [← hs] at hs3
  obtain ⟨u, hu⟩ : ∃ u, u = doe / 1460 - 25 * f0 - q := ⟨_, rfl⟩
  have hur : 0 ≤ u ∧ u ≤ 1 := by omega
  have hu1 : u = 1 → 1364 ≤ s := by omega
  have hu0 : s = 1460 → u = 1 := by omega
  have ha' : doe - doe / 1460 + doe / 36524 - doe / 146096
      = 36500 * f0 + 1460 * q + s - u := by omega
  obtain ⟨t, ht⟩ : ∃ t, t = yoe - 100 * f0 - 4 * q := ⟨_, rfl⟩
  have hy : 0 ≤ (36500 * f0 + 1460 * q + s - u) - 365 * yoe
      ∧ (36500 * f0 + 1460 * q + s - u) - 365 * yoe ≤ 364 := by
    simp only [yoe, ha']
    omega
  have htr : 0 ≤ t ∧ t ≤ 3 := by omega
  have hyoe : yoe = 100 * f0 + 4 * q + t := by omega
  clear_value yoe
  subst hyoe
  clear hf0 hq hs hu ha' hr hr3 hu0
  have hc : (100 * f0 + 4 * q + t) / 4 = 25 * f0 + q := by omega
  have hd : (100 * f0 + 4 * q + t) / 100 = f0 := by omega
  refine ⟨by omega, by omega, by omega, ?_⟩
  by_cases ht3 : t = 3
  · subst ht3
    have e1 : (100 * f0 + 4 * q + 3 + 1) / 4 = 25 * f0 + q + 1 := by omega
    by_cases hq24 : q = 24
    · subst hq24
      have e2 : (100 * f0 + 4 * 24 + 3 + 1) / 100 = f0 + 1 := by omega
      have e3 : f0 = 3 → (100 * f0 + 4 * 24 + 3 + 1) / 400 = 1 := by omega
      have e4 : f0 ≤ 2 → (100 * f0 + 4 * 24 + 3 + 1) / 400 = 0 := by omega
      omega
    · have e2 : (100 * f0 + 4 * q + 3 + 1) / 100 = f0 := by omega
      have e3 : (100 * f0 + 4 * q + 3 + 1) / 400 = 0 := by omega
      omega
  · have e1 : (100 * f0 + 4 * q + t + 1) / 4 = 25 * f0 + q := by omega
    have e2 : (100 * f0 + 4 * q + t + 1) / 100 = f0 := by omega
    have e3 : (100 * f0 + 4 * q + t + 1) / 400 = 0 := by omega
    omega

theorem monthStart_era (era yoe mp : Int) (h0 : 0 ≤ yoe) (h1 : yoe ≤ 399)
    (h2 : 0 ≤ mp) (h3 : mp ≤ 11) :
    monthStart (12 * (yoe + era * 400) + mp)
      = 146097 * era + (365 * yoe + yoe / 4 - yoe / 100) + (153 * mp + 2) / 5 := by
  unfold monthStart
  have e1 : (12 * (yoe + era * 400) + mp) / 12 = yoe + era * 400 := by omega
  have e2 : (12 * (yoe + era * 400) + mp) % 12 = mp := by omega
  simp only [e1, e2]
  have e3 : (yoe + era * 400) / 4 = yoe / 4 + 100 * era := by omega
  have e4 : (yoe + era * 400) / 100 = yoe / 100 + 4 * era := by omega
  have e5 : (yoe + era * 400) / 400 = era := by omega
  rw [e3, e4, e5]
  ring

theorem monthStart_era_next (era yoe : Int) :
    monthStart (12 * (yoe + era * 400) + 11 + 1)
      = 146097 * era + (365 * (yoe + 1) + (yoe + 1) / 4 - (yoe + 1) / 100
          + (yoe + 1) / 400) := by
  unfold monthStart
  have e1 : (12 * (yoe + era * 400) + 11 + 1) / 12 = yoe + 1 + era * 400 := by omega
  have e2 : (12 * (yoe + era * 400) + 11 + 1) % 12 = 0 := by omega
  simp only [e1, e2]
  have e3 : (yoe + 1 + era * 400) / 4 = (yoe + 1) / 4 + 100 * era := by omega
  have e4 : (yoe + 1 + era * 400) / 100 = (yoe + 1) / 100 + 4 * era := by omega
  have e5 : (yoe + 1 + era * 400) / 400 = (yoe + 1) / 400 + era := by omega
  rw [e3, e4, e5]
  norm_num
  ring

/-- The date computed by `civil`: a month from 1 to 12 and the day, counted
from 1, within the month that contains the day number. -/
theorem civil_spec (n : Int) :
    1 ≤ (civil n).2.1 ∧ (civil n).2.1 ≤ 12 ∧ 1 ≤ (civil n).2.2
      ∧ monthStart (monthIndex (civil n).1 (civil n).2.1) + (civil n).2.2 - 1 = n + 719468
      ∧ n + 719468 < monthStart (monthIndex (civil n).1 (civil n).2.1 + 1) := by
  obtain ⟨era, hera⟩ : ∃ era, era = (n + 719468) / 146097 := ⟨_, rfl⟩
  obtain ⟨doe, hdoe⟩ : ∃ doe, doe = n + 719468 - era * 146097 := ⟨_, rfl⟩
  have hd0 : 0 ≤ doe ∧ doe ≤ 146096 := by omega
  have hyb := yoe_bounds doe hd0.1 hd0.2
  simp only at hyb
  obtain ⟨yoe, hyoe⟩ : ∃ yoe, yoe = (doe - doe / 1460 + doe / 36524 - doe / 146096) / 365 :=
    ⟨_, rfl⟩
  rw [← hyoe] at hyb
  obtain ⟨hy0, hy1, hy2, hy3⟩ := hyb
  obtain ⟨doy, hdoy⟩ : ∃ doy, doy = doe - (365 * yoe + yoe / 4 - yoe / 100) := ⟨_, rfl⟩
  have hdoy0 : 0 ≤ doy ∧ doy ≤ 365 := by omega
  obtain ⟨mp, hmp⟩ : ∃ mp, mp = (5 * doy + 2) / 153 := ⟨_, rfl⟩
  have hmp0 : 0 ≤ mp ∧ mp ≤ 11 := by omega
  have hc : civil n = (if (if mp < 10 then mp + 3 else mp - 9) ≤ 2 then yoe + era * 400 + 1
      else yoe + era * 400, if mp < 10 then mp + 3 else mp - 9,
      doy - (153 * mp + 2) / 5 + 1) := by
    simp only [civil, ← hera, ← hdoe, ← hyoe, ← hdoy, ← hmp]
  have hM : monthIndex (civil n).1 (civil n).2.1 = 12 * (yoe + era * 400) + mp := by
    rw [hc]
    simp only [monthIndex]
    split_ifs <;> omega
  rw [hM, monthStart_era era yoe mp hy0 hy1 hmp0.1 hmp0.2]
  rw [hc]
  simp only
  have hlo : (153 * mp + 2) / 5 ≤ doy := by omega
  refine ⟨by split_ifs <;> omega, by split_ifs <;> omega, by omega, by omega, ?_⟩
  by_cases h11 : mp = 11
  · subst h11
    rw [monthStart_era_next era yoe]
    omega
  · have e : 12 * (yoe + era * 400) + mp + 1 = 12 * (yoe + era * 400) + (mp + 1) := by ring
    rw [e, monthStart_era era yoe (mp + 1) hy0 hy1 (by omega) (by omega)]
    omega

/-- The length of the month with index `M` is 28 to 31 days. -/
theorem monthStart_step (M : Int) :
    28 ≤ monthStart (M + 1) - monthStart M ∧ monthStart (M + 1) - monthStart M ≤ 31 := by
  unfold monthStart
  simp only
  obtain ⟨Y, hY⟩ : ∃ Y, Y = M / 12 := ⟨_, rfl⟩
  obtain ⟨r, hr⟩ : ∃ r, r = M % 12 := ⟨_, rfl⟩
  have hr0 : 0 ≤ r ∧ r ≤ 11 := by omega
  rw [← hY, ← hr]
  by_cases h11 : r = 11
  · have e1 : (M + 1) / 12 = Y + 1 := by omega
    have e2 : (M + 1) % 12 = 0 := by omega
    rw [e1, e2, h11]
    clear hY hr e1 e2
    omega
  · have e1 : (M + 1) / 12 = Y := by omega
    have e2 : (M + 1) % 12 = r + 1 := by omega
    rw [e1, e2]
    clear hY hr e1 e2
    omega

theorem monthStart_strictMono : StrictMono monthStart :=
  strictMono_int_of_lt_succ (fun M => by have := monthStart_step M; omega)

/-- A day lies in one month only. -/
theorem monthStart_unique (M N z : Int) (h1 : monthStart M ≤ z) (h2 : z < monthStart (M + 1))
    (h3 : monthStart N ≤ z) (h4 : z < monthStart (N + 1)) : M = N := by
  by_contra hne
  rcases lt_or_gt_of_ne hne with h | h
  · have := monthStart_strictMono.monotone (show M + 1 ≤ N by omega)
    omega
  · have := monthStart_strictMono.monotone (show N + 1 ≤ M by omega)
    omega

/-- The calendar fields of an instant: the month, the day and the month that
contains its day number. -/
theorem Time_calendar (t : Time) :
    1 ≤ t.Month ∧ t.Month ≤ 12 ∧ 1 ≤ t.Day ∧ t.Day ≤ 31
      ∧ monthStart (monthIndex t.Year t.Month) + t.Day - 1 = t.days + 719468
      ∧ t.days + 719468 < monthStart (monthIndex t.Year t.Month + 1) := by
  obtain ⟨h1, h2, h3, h4, h5⟩ := civil_spec t.days
  have h6 := monthStart_step (monthIndex t.Year t.Month)
  simp only [Time.Year, Time.Month, Time.Day] at *
  refine ⟨h1, h2, h3, by omega, h4, h5⟩

/-- The month index does not decrease with the day number. -/
theorem monthIndex_mono (a b : Time) (h : a.days ≤ b.days) :
    monthIndex a.Year a.Month ≤ monthIndex b.Year b.Month := by
  obtain ⟨-, -, a3, -, a5, a6⟩ := Time_calendar a
  obtain ⟨-, -, b3, -, b5, b6⟩ := Time_calendar b
  by_contra hlt
  have := monthStart_strictMono.monotone
    (show monthIndex b.Year b.Month + 1 ≤ monthIndex a.Year a.Month by omega)
  omega

/-- Within one month the days of the month differ as the day numbers do. -/
theorem Day_sub_of_same_month (a b : Time)
    (h : monthIndex a.Year a.Month = monthIndex b.Year b.Month) :
    b.Day - a.Day = b.days - a.days := by
  obtain ⟨-, -, -, -, a5, -⟩ := Time_calendar a
  obtain ⟨-, -, -, -, b5, -⟩ := Time_calendar b
  rw [h] at a5
  omega

theorem daysBefore_eq (m : Int) (h1 : 1 ≤ m) (h2 : m ≤ 12) :
    daysBefore (m - 1)
      = if m ≤ 2 then (153 * (m + 9) + 2) / 5 - 306 else (153 * (m - 3) + 2) / 5 + 59 := by
  interval_cases m <;> rfl

/-- The day number of the first day of month `m` of year `y` in `Date`. -/
theorem firstOfMonth (y m : Int) (h1 : 1 ≤ m) (h2 : m ≤ 12) :
    daysSinceEpoch y + daysBefore (m - 1)
        + (if isLeap y && decide (2 ≤ m - 1) then 1 else 0) + 719468
      = monthStart (monthIndex y m) := by
  have hleap : (if isLeap y && decide (2 ≤ m - 1) then (1 : Int) else 0)
      = if (y % 4 = 0 ∧ (y % 100 ≠ 0 ∨ y % 400 = 0)) ∧ 2 ≤ m - 1 then 1 else 0 := by
    simp [isLeap]
  rw [hleap, daysBefore_eq m h1 h2]
  unfold daysSinceEpoch monthStart monthIndex
  simp only
  by_cases hm : m ≤ 2
  · have eY : (12 * y + m - 3) / 12 = y - 1 := by omega
    have eM : (12 * y + m - 3) % 12 = m + 9 := by omega
    rw [eY, eM, if_pos hm]
    split_ifs <;> omega
  · have eY : (12 * y + m - 3) / 12 = y := by omega
    have eM : (12 * y + m - 3) % 12 = m - 3 := by omega
    rw [eY, eM, if_neg hm]
    split_ifs <;> omega

/-- The length of the month with index `monthIndex y m - 1`. -/
theorem monthStart_sub_prev (y m : Int) (h1 : 1 ≤ m) (h2 : m ≤ 12) :
    monthStart (monthIndex y m) - monthStart (monthIndex y m - 1) = prevMonthLength y m := by
  have hleap : isLeap y = true ↔ (y % 4 = 0 ∧ (y % 100 ≠ 0 ∨ y % 400 = 0)) := by
    simp [isLeap]
  unfold prevMonthLength daysIn monthStart monthIndex
  simp only [hleap]
  by_cases hm : m ≤ 3
  · have eY : (12 * y + m - 3) / 12 = if m = 3 then y else y - 1 := by split_ifs <;> omega
    have eM : (12 * y + m - 3) % 12 = if m = 3 then 0 else m + 9 := by split_ifs <;> omega
    have eY2 : (12 * y + m - 3 - 1) / 12 = y - 1 := by omega
    have eM2 : (12 * y + m - 3 - 1) % 12 = m + 8 := by omega
    rw [eY, eM, eY2, eM2]
    interval_cases m <;> (simp; try omega)
  · have eY : (12 * y + m - 3) / 12 = y := by omega
    have eM : (12 * y + m - 3) % 12 = m - 3 := by omega
    have eY2 : (12 * y + m - 3 - 1) / 12 = y := by omega
    have eM2 : (12 * y + m - 3 - 1) % 12 = m - 4 := by omega
    rw [eY, eM, eY2, eM2]
    interval_cases m <;> simp

/-- The day number of an instant lies in the range of the absolute days. -/
theorem days_range (t : Time) :
    -106751991073400 ≤ t.days ∧ t.days ≤ 106751991261201 := by
  unfold Time.days Time.abs
  omega

theorem abs_of_absInRange (t : Time) (h : t.absInRange) :
    t.abs = t.sec + t.offset + unixToAbsolute := by
  unfold Time.absInRange at h
  unfold Time.abs
  omega

/-- Inside the range of the absolute seconds the day number is the floor of
the Unix seconds, shifted into the zone, by the seconds of a day. -/
theorem days_of_absInRange (t : Time) (h : t.absInRange) :
    t.days = (t.sec + t.offset) / 86400 := by
  unfold Time.days
  rw [abs_of_absInRange t h]
  unfold unixToAbsolute
  omega

theorem abs_mod_of_absInRange (t : Time) (h : t.absInRange) :
    t.abs % 86400 = (t.sec + t.offset) % 86400 := by
  rw [abs_of_absInRange t h]
  unfold unixToAbsolute
  omega

/-- The day of `time.Date(y, m, 0, 0, 0, 0, 0, time.UTC)` is the length of the
month before month `m` of year `y`, when the day before the first of the month
lies in the range of the absolute days. -/
theorem Date_zero_Day (y m : Int) (h1 : 1 ≤ m) (h2 : m ≤ 12)
    (hlo : -106751990353931 ≤ monthStart (monthIndex y m))
    (hhi : monthStart (monthIndex y m) ≤ 106751991980670) :
    (Date y m 0 0 0 0).Day = prevMonthLength y m := by
  have e1 : (m - 1) / 12 = 0 := by omega
  have e2 : (m - 1) % 12 = m - 1 := by omega
  have hF := firstOfMonth y m h1 h2
  have hd : (Date y m 0 0 0 0).days + 719468 = monthStart (monthIndex y m) - 1 := by
    simp only [Date, Time.days, Time.abs, e1, e2, add_zero, unixToAbsolute]
    omega
  obtain ⟨-, -, c3, -, c5, c6⟩ := Time_calendar (Date y m 0 0 0 0)
  have hs := monthStart_step (monthIndex y m - 1)
  rw [sub_add_cancel] at hs
  have hu := monthStart_unique (monthIndex y m - 1)
    (monthIndex (Date y m 0 0 0 0).Year (Date y m 0 0 0 0).Month)
    ((Date y m 0 0 0 0).days + 719468)
    (by omega) (by rw [sub_add_cancel]; omega) (by omega) c6
  rw [← hu] at c5
  rw [← monthStart_sub_prev y m h1 h2]
  omega

theorem monthStart_absolute_epoch :
    monthStart (monthIndex (-292277022400) 3) = -106751990353932 := by
  decide

/-- The day of `time.Date(year, month, 0, ...)` for the year and the month of
an instant that does not lie in March of year -292277022400, the first month
of the absolute seconds. -/
theorem Date_zero_Day_of_time (t : Time) (h : t.Year ≠ -292277022400 ∨ t.Month ≠ 3) :
    (Date t.Year t.Month 0 0 0 0).Day = prevMonthLength t.Year t.Month := by
  obtain ⟨c1, c2, c3, -, c5, c6⟩ := Time_calendar t
  obtain ⟨r1, r2⟩ := days_range t
  have h0 := monthStart_absolute_epoch
  have hne : monthIndex t.Year t.Month ≠ monthIndex (-292277022400) 3 := by
    unfold monthIndex
    omega
  have hge : monthIndex (-292277022400) 3 + 1 ≤ monthIndex t.Year t.Month := by
    by_contra hlt
    have := monthStart_strictMono.monotone
      (show monthIndex t.Year t.Month + 1 ≤ monthIndex (-292277022400) 3 by omega)
    omega
  have hm := monthStart_strictMono.monotone hge
  have hs := monthStart_step (monthIndex (-292277022400) 3)
  exact Date_zero_Day t.Year t.Month c1 c2 (by omega) (by omega)

/-! ## Lemmas on the six steps together -/

/-- The six values on fields in the ranges of a clock. -/
theorem borrow_fields (s0 s1 s2 s3 s4 s5 e0 e1 e2 e3 e4 e5 : Int)
    (a1 : 0 ≤ s3) (a2 : s3 ≤ 23) (a3 : 0 ≤ s4) (a4 : s4 ≤ 59) (a5 : 0 ≤ s5) (a6 : s5 ≤ 59)
    (b1 : 0 ≤ e3) (b2 : e3 ≤ 23) (b3 : 0 ≤ e4) (b4 : e4 ≤ 59) (b5 : 0 ≤ e5) (b6 : e5 ≤ 59) :
    ∃ v, borrow [s0, s1, s2, s3, s4, s5] [e0, e1, e2, e3, e4, e5] = some v
      ∧ 0 ≤ v.seconds ∧ 0 ≤ v.minutes ∧ 0 ≤ v.hours
      ∧ 3600 * v.hours + 60 * v.minutes + v.seconds
          = (3600 * e3 + 60 * e4 + e5 - (3600 * s3 + 60 * s4 + s5)) % 86400
      ∧ v.days
          = (if (if 3600 * e3 + 60 * e4 + e5 < 3600 * s3 + 60 * s4 + s5 then e2 - 1 else e2)
                - s2 < 0
              then (if 3600 * e3 + 60 * e4 + e5 < 3600 * s3 + 60 * s4 + s5 then e2 - 1 else e2)
                - s2 + (Date e0 e1 0 0 0 0).Day
              else (if 3600 * e3 + 60 * e4 + e5 < 3600 * s3 + 60 * s4 + s5 then e2 - 1 else e2)
                - s2)
      ∧ v.months = (if e1 - s1 < 0 then e1 - s1 + 12 else e1 - s1)
      ∧ v.years = (if e1 - s1 < 0 then e0 - 1 else e0) - s0
      ∧ v.end_[1]? = some e1 := by
  simp only [borrow, borrowClock_six, stepDays_six, stepMonths_six, stepYears_six,
    Option.bind_eq_bind, Option.some_bind]
  refine ⟨_, rfl, ?_⟩
  simp only [List.getElem?_cons_succ, List.getElem?_cons_zero, and_true]
  generalize (Date e0 e1 0 0 0 0).Day = D
  refine ⟨?_, ?_, ?_, ?_, ?_⟩ <;> (split_ifs <;> omega)

/-- The six values of two instants. -/
theorem borrow_times (earlier later : Time) :
    ∃ v, borrow (segments earlier) (segments later) = some v
      ∧ 0 ≤ v.seconds ∧ 0 ≤ v.minutes ∧ 0 ≤ v.hours
      ∧ 3600 * v.hours + 60 * v.minutes + v.seconds
          = (later.clockSeconds - earlier.clockSeconds) % 86400
      ∧ v.days
          = (if (if later.clockSeconds < earlier.clockSeconds then later.Day - 1
                else later.Day) - earlier.Day < 0
              then (if later.clockSeconds < earlier.clockSeconds then later.Day - 1
                else later.Day) - earlier.Day + (Date later.Year later.Month 0 0 0 0).Day
              else (if later.clockSeconds < earlier.clockSeconds then later.Day - 1
                else later.Day) - earlier.Day)
      ∧ v.months = (if later.Month - earlier.Month < 0 then later.Month - earlier.Month + 12
          else later.Month - earlier.Month)
      ∧ v.years = (if later.Month - earlier.Month < 0 then later.Year - 1 else later.Year)
          - earlier.Year
      ∧ v.end_[1]? = some later.Month := by
  have hH1 := Hour_range earlier
  have hM1 := Minute_range earlier
  have hS1 := Second_range earlier
  have hH2 := Hour_range later
  have hM2 := Minute_range later
  have hS2 := Second_range later
  exact borrow_fields earlier.Year earlier.Month earlier.Day earlier.Hour
    earlier.Minute earlier.Second later.Year later.Month later.Day later.Hour
    later.Minute later.Second hH1.1 hH1.2 hM1.1 hM1.2 hS1.1 hS1.2 hH2.1 hH2.2
    hM2.1 hM2.2 hS2.1 hS2.2


/-! ## The claims -/

/-- C1 (evaluation of the code where the claim fails): the instants
2019-01-31T23:00:00Z and 2019-02-01T01:00:00Z are 7200 seconds apart, on
either side of a month boundary; the values computed are years 0, months 1,
days 0, hours 2, minutes 0, seconds 0, and the text is "1 month, 2 hours ago":
the months value is not 0. -/
theorem C1_month_boundary_reports_a_month :
    (Unix 1548982800).unixNano - (Unix 1548975600).unixNano = 7200 * 1000000000
      ∧ segments (Unix 1548975600) = [2019, 1, 31, 23, 0, 0]
      ∧ segments (Unix 1548982800) = [2019, 2, 1, 1, 0, 0]
      ∧ (breakdown (Unix 1548975600) ⟨Unix 1548982800⟩).map Vars.values
          = some [0, 1, 0, 2, 0, 0]
      ∧ differenceFromNow (Unix 1548975600) ⟨Unix 1548982800⟩
          = some "1 month, 2 hours ago" := by
  decide

/-- C2 (evaluation of the code where the claim fails): for then =
2019-01-31T00:00:00Z and now = 2019-03-01T00:00:00Z the values computed are
years 0, months 2, days -2, hours 0, minutes 0, seconds 0: the days value is
negative, and the text is "2 months ago". -/
theorem C2_days_negative_after_borrow :
    segments (Unix 1548892800) = [2019, 1, 31, 0, 0, 0]
      ∧ segments (Unix 1551398400) = [2019, 3, 1, 0, 0, 0]
      ∧ (breakdown (Unix 1548892800) ⟨Unix 1551398400⟩).map Vars.values
          = some [0, 2, -2, 0, 0, 0]
      ∧ differenceFromNow (Unix 1548892800) ⟨Unix 1551398400⟩ = some "2 months ago" := by
  decide

/-- C3 (amended): for two instants whose internal seconds do not wrap (Unix
seconds below 9223371974719179008), when the signed difference now - then, in
nanoseconds, is strictly between -1 second and +1 second, `differenceFromNow`
returns exactly the string "now". -/
theorem C3_within_a_second_is_now (then_ : Time) (c : clock)
    (hr1 : then_.extInRange) (hr2 : c.Now.extInRange)
    (hlo : -1000000000 < c.Now.unixNano - then_.unixNano)
    (hhi : c.Now.unixNano - then_.unixNano < 1000000000) :
    differenceFromNow then_ c = some "now" := by
  have hs := Sub_small c.Now then_ hr2 hr1 hlo hhi
  have h : c.Now.Sub then_ > -1000000000 ∧ c.Now.Sub then_ < 1000000000 := by
    rw [hs]
    exact ⟨hlo, hhi⟩
  unfold differenceFromNow
  simp only [if_pos h]
  rfl

/-- Witness of C3: half a second before now, and then = now. -/
theorem C3_within_a_second_is_now_witness :
    differenceFromNow ⟨1569110218, 500000000, 0⟩ ⟨Unix 1569110219⟩ = some "now"
      ∧ differenceFromNow (Unix 1569110219) ⟨Unix 1569110219⟩ = some "now" :=
  ⟨C3_within_a_second_is_now ⟨1569110218, 500000000, 0⟩ ⟨Unix 1569110219⟩
      ⟨by decide, by decide⟩ ⟨by decide, by decide⟩ (by decide) (by decide),
    C3_within_a_second_is_now (Unix 1569110219) ⟨Unix 1569110219⟩
      ⟨by decide, by decide⟩ ⟨by decide, by decide⟩ (by decide) (by decide)⟩

/-- C3 (counterexample): then = Unix 9223371974719179007 and 500000000
nanoseconds is half a second before now = Unix 9223371974719179008, where the
internal seconds wrap; `now.Sub(then)` is the minimum duration and the result is
not "now". -/
theorem C3_not_now_across_the_wrap :
    (-1000000000 < (Unix 9223371974719179008).unixNano
          - (Time.mk 9223371974719179007 500000000 0).unixNano
        ∧ (Unix 9223371974719179008).unixNano
          - (Time.mk 9223371974719179007 500000000 0).unixNano < 1000000000)
      ∧ (Unix 9223371974719179008).Sub (Time.mk 9223371974719179007 500000000 0)
          = minDuration
      ∧ differenceFromNow (Time.mk 9223371974719179007 500000000 0)
            ⟨Unix 9223371974719179008⟩
          = some "29 days, 23 hours, 59 minutes, 59 seconds in the future"
      ∧ differenceFromNow (Time.mk 9223371974719179007 500000000 0)
            ⟨Unix 9223371974719179008⟩ ≠ some "now" := by
  decide

/-- C4 (amended): for two instants whose internal seconds do not wrap (Unix
seconds below 9223371974719179008): if now - then is at least 1 second the
returned string ends with " ago", does not end with " in the future" and is not
"now"; if now - then is at most -1 second it ends with " in the future" and is
not "now". -/
theorem C4_direction_suffix (then_ : Time) (c : clock)
    (hr1 : then_.extInRange) (hr2 : c.Now.extInRange)
    (hv1 : then_.valid) (hv2 : c.Now.valid) :
    (1000000000 ≤ c.Now.unixNano - then_.unixNano →
      ∃ s, differenceFromNow then_ c = some s ∧ HasSuffix s " ago" = true
        ∧ HasSuffix s " in the future" = false ∧ s ≠ "now")
    ∧ (c.Now.unixNano - then_.unixNano ≤ -1000000000 →
      ∃ s, differenceFromNow then_ c = some s ∧ HasSuffix s " in the future" = true
        ∧ s ≠ "now") := by
  constructor
  · intro h
    have hn : ¬ (c.Now.Sub then_ > -1000000000 ∧ c.Now.Sub then_ < 1000000000) := by
      rw [Sub_lt_second_iff _ _ hr2 hr1 hv2 hv1]
      omega
    have hp : c.Now.Sub then_ > 0 := (Sub_pos_iff _ _ hr2 hr1 hv2 hv1).mpr (by omega)
    obtain ⟨v, -, hv⟩ := differenceFromNow_eq then_ c hn
    rw [if_pos hp] at hv
    exact ⟨_, hv, HasSuffix_append _ _, HasSuffix_ago_future _, append_ago_ne_now _⟩
  · intro h
    have hn : ¬ (c.Now.Sub then_ > -1000000000 ∧ c.Now.Sub then_ < 1000000000) := by
      rw [Sub_gt_neg_second_iff _ _ hr2 hr1 hv2 hv1]
      omega
    have hp : ¬ c.Now.Sub then_ > 0 := by
      rw [Sub_pos_iff _ _ hr2 hr1 hv2 hv1]
      omega
    obtain ⟨v, -, hv⟩ := differenceFromNow_eq then_ c hn
    rw [if_neg hp] at hv
    exact ⟨_, hv, HasSuffix_append _ _, append_future_ne_now _⟩

/-- Witness of C4: 30 seconds before and 30 seconds after the instant of the
test clock. -/
theorem C4_direction_suffix_witness :
    (∃ s, differenceFromNow (Unix 1569110189) ⟨Unix 1569110219⟩ = some s
        ∧ HasSuffix s " ago" = true ∧ HasSuffix s " in the future" = false ∧ s ≠ "now")
    ∧ (∃ s, differenceFromNow (Unix 1569110249) ⟨Unix 1569110219⟩ = some s
        ∧ HasSuffix s " in the future" = true ∧ s ≠ "now") :=
  ⟨(C4_direction_suffix (Unix 1569110189) ⟨Unix 1569110219⟩ ⟨by decide, by decide⟩
      ⟨by decide, by decide⟩ ⟨by decide, by decide⟩ ⟨by decide, by decide⟩).1 (by decide),
    (C4_direction_suffix (Unix 1569110249) ⟨Unix 1569110219⟩ ⟨by decide, by decide⟩
      ⟨by decide, by decide⟩ ⟨by decide, by decide⟩ ⟨by decide, by decide⟩).2 (by decide)⟩

/-- C4 (counterexample): for then = Unix 0 and now = Unix 9223372036854775807,
now - then is more than 1 second, and the result ends with " in the future",
not with " ago"; for then = Unix 9223372036854775807 and now = Unix 1569110219,
now - then is less than -1 second, and the result ends with " ago". -/
theorem C4_direction_reversed_by_the_wrap :
    1000000000 ≤ (Unix 9223372036854775807).unixNano - (Unix 0).unixNano
      ∧ differenceFromNow (Unix 0) ⟨Unix 9223372036854775807⟩
          = some "1 month, 27 days, 8 hours, 29 minutes, 53 seconds in the future"
      ∧ HasSuffix "1 month, 27 days, 8 hours, 29 minutes, 53 seconds in the future" " ago"
          = false
      ∧ (Unix 1569110219).unixNano - (Unix 9223372036854775807).unixNano ≤ -1000000000
      ∧ differenceFromNow (Unix 9223372036854775807) ⟨Unix 1569110219⟩
          = some "9 months, 17 days, 8 hours, 26 minutes, 52 seconds ago"
      ∧ HasSuffix "9 months, 17 days, 8 hours, 26 minutes, 52 seconds ago"
          " in the future" = false := by
  decide

/-- C5 (counterexample): with both instants read in UTC, the result for then =
Unix 1169106072 and now = Unix 1569110219 is not the text with "17 hours". -/
theorem C5_utc_is_not_seventeen_hours :
    differenceFromNow (Unix 1169106072) ⟨Unix 1569110219⟩
      ≠ some "12 years, 8 months, 3 days, 17 hours, 15 minutes, 47 seconds ago" := by
  decide

/-- C5 (amended): with both instants read in UTC (2007-01-18T07:41:12Z and
2019-09-21T23:56:59Z), the result for then = Unix 1169106072 and now = Unix
1569110219 is "12 years, 8 months, 3 days, 16 hours, 15 minutes, 47 seconds
ago". -/
theorem C5_utc_is_sixteen_hours :
    segments (Unix 1169106072) = [2007, 1, 18, 7, 41, 12]
      ∧ segments (Unix 1569110219) = [2019, 9, 21, 23, 56, 59]
      ∧ differenceFromNow (Unix 1169106072) ⟨Unix 1569110219⟩
          = some "12 years, 8 months, 3 days, 16 hours, 15 minutes, 47 seconds ago" := by
  decide

/-- The expectation of `TestDiffstring` for 1169106072 is met when the two
instants are read in a zone that is 8 hours west of UTC in January 2007 and 7
hours west in September 2019 (the zone of the comment in main_test.go:11). -/
theorem TestDiffstring_case5_pacific :
    differenceFromNow ⟨1169106072, 0, -28800⟩ ⟨⟨1569110219, 0, -25200⟩⟩
      = some "12 years, 8 months, 3 days, 17 hours, 15 minutes, 47 seconds ago" := by
  decide

/-- C6 (amended): for instants a, b whose internal seconds do not wrap (Unix
seconds below 9223371974719179008) with b - a at least 1 second, the two calls
with the roles exchanged compute the same six values, and their results are
one and the same phrase followed by " ago" and by " in the future". -/
theorem C6_symmetry_of_magnitude (a b : Time)
    (hra : a.extInRange) (hrb : b.extInRange) (hva : a.valid) (hvb : b.valid)
    (h : 1000000000 ≤ b.unixNano - a.unixNano) :
    ∃ v, breakdown a ⟨b⟩ = some v ∧ breakdown b ⟨a⟩ = some v ∧
      ∃ r, r = phrase v.values
        ∧ differenceFromNow a ⟨b⟩ = some (r ++ " ago")
        ∧ differenceFromNow b ⟨a⟩ = some (r ++ " in the future") := by
  have hn1 : ¬ (b.Sub a > -1000000000 ∧ b.Sub a < 1000000000) := by
    rw [Sub_lt_second_iff _ _ hrb hra hvb hva]
    omega
  have hn2 : ¬ (a.Sub b > -1000000000 ∧ a.Sub b < 1000000000) := by
    rw [Sub_gt_neg_second_iff _ _ hra hrb hva hvb]
    omega
  have hp1 : b.Sub a > 0 := (Sub_pos_iff _ _ hrb hra hvb hva).mpr (by omega)
  have hp2 : ¬ a.Sub b > 0 := by
    rw [Sub_pos_iff _ _ hra hrb hva hvb]
    omega
  obtain ⟨v, hv, hd⟩ := differenceFromNow_eq a ⟨b⟩ hn1
  obtain ⟨w, hw, he⟩ := differenceFromNow_eq b ⟨a⟩ hn2
  have hvw : breakdown b ⟨a⟩ = breakdown a ⟨b⟩ := by
    simp only [breakdown, direction, hp1, hp2, decide_True, decide_False, if_true]
    rfl
  have hwv : w = v := by
    rw [hvw, hv] at hw
    exact (Option.some.inj hw).symm
  subst hwv
  simp only [if_pos hp1] at hd
  simp only [if_neg hp2] at he
  exact ⟨w, hv, hvw ▸ hv, _, rfl, hd, he⟩

/-- Witness of C6: the instant of the test clock and 30 seconds before it. -/
theorem C6_symmetry_of_magnitude_witness :
    ∃ v, breakdown (Unix 1569110189) ⟨Unix 1569110219⟩ = some v
      ∧ breakdown (Unix 1569110219) ⟨Unix 1569110189⟩ = some v ∧
      ∃ r, r = phrase v.values
        ∧ differenceFromNow (Unix 1569110189) ⟨Unix 1569110219⟩ = some (r ++ " ago")
        ∧ differenceFromNow (Unix 1569110219) ⟨Unix 1569110189⟩
            = some (r ++ " in the future") :=
  C6_symmetry_of_magnitude (Unix 1569110189) (Unix 1569110219) ⟨by decide, by decide⟩
    ⟨by decide, by decide⟩ ⟨by decide, by decide⟩ ⟨by decide, by decide⟩ (by decide)

/-- C6 (counterexample): for a = Unix 0 and b = Unix 9223372036854775807, b - a
is more than 1 second, the call with then = a ends with " in the future" and
the call with then = b ends with " ago": no phrase followed by " ago" is the
first result. -/
theorem C6_suffixes_swapped_by_the_wrap :
    1000000000 ≤ (Unix 9223372036854775807).unixNano - (Unix 0).unixNano
      ∧ differenceFromNow (Unix 0) ⟨Unix 9223372036854775807⟩
          = some "1 month, 27 days, 8 hours, 29 minutes, 53 seconds in the future"
      ∧ differenceFromNow (Unix 9223372036854775807) ⟨Unix 0⟩
          = some "1 month, 27 days, 8 hours, 29 minutes, 53 seconds ago"
      ∧ ¬ ∃ r, differenceFromNow (Unix 0) ⟨Unix 9223372036854775807⟩ = some (r ++ " ago")
          ∧ differenceFromNow (Unix 9223372036854775807) ⟨Unix 0⟩
              = some (r ++ " in the future") := by
  have e : differenceFromNow (Unix 0) ⟨Unix 9223372036854775807⟩
      = some "1 month, 27 days, 8 hours, 29 minutes, 53 seconds in the future" := by
    decide
  refine ⟨by decide, e, by decide, ?_⟩
  rintro ⟨r, h1, -⟩
  rw [e] at h1
  have hs := HasSuffix_ago_future r
  rw [← Option.some.inj h1] at hs
  revert hs
  decide

/-- C7: for every six values, the phrase that lines 104-125 put before the
direction is the fragments `<value> <unit>` of exactly the fields whose value
is positive, in the order year, month, day, hour, minute, second, joined by
", "; a field whose value is zero or negative contributes nothing. -/
theorem C7_phrase_is_positive_fields_in_order (v : Vars) (past : Bool) :
    render v.values past
      = some (", ".intercalate
          (((labels.zip v.values).filter (fun p => decide (p.2 > 0))).map
            (fun p => toString p.2 ++ " " ++ unitName p.2 p.1))
          ++ (if past then " ago" else " in the future")) := by
  rw [render_eq v.values past rfl]
  rfl

/-- C8: every fragment that the loop of lines 109-117 emits belongs to a field
with a positive value; it is "1 u" without a trailing "s" when the value is 1
and "v us" when the value v is greater than 1, and it is never the plural form
for the value 1 nor the singular form for a value greater than 1. -/
theorem C8_singular_and_plural (v : Vars) :
    ∃ frags, diffStringsLoop labels v.values (labels.length + 1) 0 [] = some frags ∧
      ∀ f ∈ frags, ∃ value u, (u, value) ∈ labels.zip v.values ∧
        ((value = 1 ∧ f = "1 " ++ u ∧ f ≠ "1 " ++ u ++ "s")
          ∨ (value > 1 ∧ f = toString value ++ " " ++ u ++ "s"
              ∧ f ≠ toString value ++ " " ++ u)) := by
  have hl : labels.length ≤ v.values.length := by simp [labels, Vars.values]
  refine ⟨_, diffStringsLoop_eq labels v.values hl _ 0 [] (by omega), ?_⟩
  intro f hf
  simp only [List.nil_append, List.drop_zero, fragments, List.mem_map, List.mem_filter,
    decide_eq_true_eq] at hf
  obtain ⟨⟨u, value⟩, ⟨hmem, hpos⟩, rfl⟩ := hf
  refine ⟨value, u, hmem, ?_⟩
  simp only at hpos
  by_cases h1 : value = 1
  · left
    subst h1
    have e : fragment ((u, (1 : Int)).2) ((u, (1 : Int)).1) = "1 " ++ u := rfl
    exact ⟨rfl, e, fun h => ne_append_s _ (e ▸ h)⟩
  · right
    have hgt : value > 1 := by omega
    have e : fragment ((u, value).2) ((u, value).1) = toString value ++ " " ++ u ++ "s" := by
      simp [fragment, unitName, hgt, String.append_assoc]
    exact ⟨hgt, e, fun h => ne_append_s _ (e ▸ h).symm⟩

/-- C9: `differenceFromNow` returns a string for every pair of instants: the
two segment lists have six elements, `labels` and the values have six
elements, and no index leaves its list. -/
theorem C9_total (then_ : Time) (c : clock) :
    (∃ s, differenceFromNow then_ c = some s)
      ∧ (segments then_).length = 6 ∧ (segments c.Now).length = 6
      ∧ labels.length = 6 ∧ ∀ v : Vars, v.values.length = 6 := by
  refine ⟨?_, rfl, rfl, rfl, fun _ => rfl⟩
  by_cases h : c.Now.Sub then_ > -1000000000 ∧ c.Now.Sub then_ < 1000000000
  · refine ⟨"now", ?_⟩
    unfold differenceFromNow
    simp only [if_pos h]
    rfl
  · obtain ⟨v, -, hv⟩ := differenceFromNow_eq then_ c h
    exact ⟨_, hv⟩

/-- C10: the seconds, minutes and hours of the borrow steps lie in 0..59,
0..59 and 0..23; 3600*hours + 60*minutes + seconds is the difference of the
two times of day modulo 86400; the day field of the later instant is lowered
by 1 before the day subtraction exactly when its time of day is smaller than
that of the earlier instant; and these are the seconds, minutes and hours
that the six steps deliver. -/
theorem C10_clock_borrow (earlier later : Time) :
    ∃ v, borrowClock (segments earlier) (segments later) = some v
      ∧ 0 ≤ v.seconds ∧ v.seconds ≤ 59
      ∧ 0 ≤ v.minutes ∧ v.minutes ≤ 59
      ∧ 0 ≤ v.hours ∧ v.hours ≤ 23
      ∧ 3600 * v.hours + 60 * v.minutes + v.seconds
          = (later.clockSeconds - earlier.clockSeconds) % 86400
      ∧ v.end_[2]? = some
          (if later.clockSeconds < earlier.clockSeconds then later.Day - 1 else later.Day)
      ∧ ∃ w, borrow (segments earlier) (segments later) = some w
          ∧ w.seconds = v.seconds ∧ w.minutes = v.minutes ∧ w.hours = v.hours := by
  have hH1 := Hour_range earlier
  have hM1 := Minute_range earlier
  have hS1 := Second_range earlier
  have hH2 := Hour_range later
  have hM2 := Minute_range later
  have hS2 := Second_range later
  exact borrowClock_fields earlier.Year earlier.Month earlier.Day earlier.Hour
    earlier.Minute earlier.Second later.Year later.Month later.Day later.Hour
    later.Minute later.Second hH1.1 hH1.2 hM1.1 hM1.2 hS1.1 hS1.2 hH2.1 hH2.2
    hM2.1 hM2.2 hS2.1 hS2.2


/-! ## The claims on the calendar steps -/

/-- For two instants earlier <= later of one zone whose internal seconds do not
wrap, `differenceFromNow` subtracts the fields of the earlier instant from
those of the later one, in either order of the call. -/
theorem breakdown_of_le (earlier later : Time)
    (he1 : earlier.extInRange) (he2 : later.extInRange)
    (hv1 : earlier.valid) (hv2 : later.valid) (hz : earlier.offset = later.offset)
    (hle : earlier.unixNano ≤ later.unixNano) :
    breakdown earlier ⟨later⟩ = borrow (segments earlier) (segments later)
      ∧ breakdown later ⟨earlier⟩ = borrow (segments earlier) (segments later) := by
  constructor
  · by_cases hlt : earlier.unixNano < later.unixNano
    · have hp : later.Sub earlier > 0 := (Sub_pos_iff _ _ he2 he1 hv2 hv1).mpr hlt
      simp only [breakdown, direction, hp, decide_True, if_true]
    · have heq : earlier = later := by
        unfold Time.valid at hv1 hv2
        unfold Time.unixNano at hle hlt
        cases earlier
        cases later
        simp only [Time.mk.injEq] at *
        omega
      subst heq
      have hp : ¬ earlier.Sub earlier > 0 := by
        rw [Sub_pos_iff _ _ he1 he1 hv1 hv1]
        omega
      simp only [breakdown, direction, hp, decide_False]
      rfl
  · have hp : ¬ earlier.Sub later > 0 := by
      rw [Sub_pos_iff _ _ he1 he2 hv1 hv2]
      omega
    simp only [breakdown, direction, hp, decide_False]
    rfl

/-- C11 (amended): for instants earlier <= later of one zone whose internal and
absolute seconds do not wrap (in UTC: Unix seconds from -9223372028741760000 to
9223371974719179007), the months lie in 0..11, the years are not negative, and
12*years + months is the difference of 12*year + month of the two instants;
the month field of the later instant is still the one of `segments` when the
months are computed, whatever the day step did; and these are the values of
`differenceFromNow` for the two instants, in either order of the call. -/
theorem C11_months_and_years (earlier later : Time)
    (he1 : earlier.extInRange) (he2 : later.extInRange)
    (hr1 : earlier.absInRange) (hr2 : later.absInRange)
    (hv1 : earlier.valid) (hv2 : later.valid) (hz : earlier.offset = later.offset)
    (hle : earlier.unixNano ≤ later.unixNano) :
    ∃ v, borrow (segments earlier) (segments later) = some v
      ∧ 0 ≤ v.months ∧ v.months ≤ 11 ∧ 0 ≤ v.years
      ∧ 12 * v.years + v.months
          = (12 * later.Year + later.Month) - (12 * earlier.Year + earlier.Month)
      ∧ v.end_[1]? = some later.Month
      ∧ breakdown earlier ⟨later⟩ = some v ∧ breakdown later ⟨earlier⟩ = some v := by
  obtain ⟨v, hv, -, -, -, -, -, hmo, hye, hend⟩ := borrow_times earlier later
  obtain ⟨a1, a2, -⟩ := Time_calendar earlier
  obtain ⟨b1, b2, -⟩ := Time_calendar later
  obtain ⟨hb1, hb2⟩ := breakdown_of_le earlier later he1 he2 hv1 hv2 hz hle
  have hsec : earlier.sec ≤ later.sec := by
    unfold Time.valid Time.unixNano at *
    omega
  have hdays : earlier.days ≤ later.days := by
    rw [days_of_absInRange earlier hr1, days_of_absInRange later hr2]
    omega
  have hmono := monthIndex_mono earlier later hdays
  unfold monthIndex at hmono
  refine ⟨v, hv, ?_, ?_, ?_, ?_, hend, hb1.trans hv, hb2.trans hv⟩
  · rw [hmo]; split_ifs <;> omega
  · rw [hmo]; split_ifs <;> omega
  · rw [hye]; split_ifs <;> omega
  · rw [hmo, hye]; split_ifs <;> omega

/-- Witness of C11: the two instants of the last case of `TestDiffstring`. -/
theorem C11_months_and_years_witness :
    ∃ v, borrow (segments (Unix 1169106072)) (segments (Unix 1569110219)) = some v
      ∧ 0 ≤ v.months ∧ v.months ≤ 11 ∧ 0 ≤ v.years
      ∧ 12 * v.years + v.months
          = (12 * (Unix 1569110219).Year + (Unix 1569110219).Month)
            - (12 * (Unix 1169106072).Year + (Unix 1169106072).Month)
      ∧ v.end_[1]? = some (Unix 1569110219).Month
      ∧ breakdown (Unix 1169106072) ⟨Unix 1569110219⟩ = some v
      ∧ breakdown (Unix 1569110219) ⟨Unix 1169106072⟩ = some v :=
  C11_months_and_years (Unix 1169106072) (Unix 1569110219)
    ⟨by decide, by decide⟩ ⟨by decide, by decide⟩
    ⟨by decide, by decide⟩ ⟨by decide, by decide⟩
    ⟨by decide, by decide⟩ ⟨by decide, by decide⟩ rfl (by decide)

/-- C11 (counterexample): earlier = Unix -9223372036854775808 is read as
292277026596-12-04T15:30:08Z, because its absolute seconds wrap; with later =
Unix 0 the months are 1 and the years are 1969 - 292277026596, a negative
number; these are the values of `differenceFromNow` for then = earlier and
now = later. For earlier = Unix 0 and later = Unix 9223372036854775807 the
internal seconds of later wrap, `differenceFromNow` takes the two instants in
the other order, and its years are negative as well. -/
theorem C11_years_negative_by_the_wrap :
    (Unix (-9223372036854775808)).valid ∧ (Unix 0).valid
      ∧ (Unix (-9223372036854775808)).offset = (Unix 0).offset
      ∧ (Unix (-9223372036854775808)).unixNano ≤ (Unix 0).unixNano
      ∧ segments (Unix (-9223372036854775808)) = [292277026596, 12, 4, 15, 30, 8]
      ∧ segments (Unix 0) = [1970, 1, 1, 0, 0, 0]
      ∧ (borrow (segments (Unix (-9223372036854775808))) (segments (Unix 0))).map
            Vars.values = some [-292277024627, 1, 27, 8, 29, 52]
      ∧ (breakdown (Unix (-9223372036854775808)) ⟨Unix 0⟩).map Vars.values
          = some [-292277024627, 1, 27, 8, 29, 52]
      ∧ differenceFromNow (Unix (-9223372036854775808)) ⟨Unix 0⟩
          = some "1 month, 27 days, 8 hours, 29 minutes, 52 seconds ago"
      ∧ (Unix 0).unixNano ≤ (Unix 9223372036854775807).unixNano
      ∧ segments (Unix 9223372036854775807) = [292277026596, 12, 4, 15, 30, 7]
      ∧ (breakdown (Unix 0) ⟨Unix 9223372036854775807⟩).map Vars.values
          = some [-292277024627, 1, 27, 8, 29, 53] := by
  refine ⟨⟨by decide, by decide⟩, ⟨by decide, by decide⟩, rfl, by decide, by decide,
    by decide, by decide, by decide, by decide, by decide, by decide, by decide⟩

/-- C12 (amended): when the later instant does not lie in March of year
-292277022400, the first month of the absolute seconds: with d = the day of the
later instant (less 1 when its time of day is smaller than that of the earlier
instant, which is when the hour step borrows) minus the day of the earlier
instant, the days are d when d >= 0 and d + L when d < 0, where L is the length
of the calendar month before the month of the later instant in the year of the
later instant. -/
theorem C12_days (earlier later : Time)
    (h : later.Year ≠ -292277022400 ∨ later.Month ≠ 3) :
    ∃ c v, borrowClock (segments earlier) (segments later) = some c
      ∧ borrow (segments earlier) (segments later) = some v
      ∧ c.end_[2]? = some
          (if later.clockSeconds < earlier.clockSeconds then later.Day - 1 else later.Day)
      ∧ v.days
          = (if 0 ≤ (if later.clockSeconds < earlier.clockSeconds then later.Day - 1
                else later.Day) - earlier.Day
              then (if later.clockSeconds < earlier.clockSeconds then later.Day - 1
                else later.Day) - earlier.Day
              else (if later.clockSeconds < earlier.clockSeconds then later.Day - 1
                else later.Day) - earlier.Day + prevMonthLength later.Year later.Month) := by
  have hH1 := Hour_range earlier
  have hM1 := Minute_range earlier
  have hS1 := Second_range earlier
  have hH2 := Hour_range later
  have hM2 := Minute_range later
  have hS2 := Second_range later
  obtain ⟨c, hc, -, -, -, -, -, -, -, hc2, -⟩ :=
    borrowClock_fields earlier.Year earlier.Month earlier.Day earlier.Hour
      earlier.Minute earlier.Second later.Year later.Month later.Day later.Hour
      later.Minute later.Second hH1.1 hH1.2 hM1.1 hM1.2 hS1.1 hS1.2 hH2.1 hH2.2
      hM2.1 hM2.2 hS2.1 hS2.2
  obtain ⟨v, hv, -, -, -, -, hd, -⟩ := borrow_times earlier later
  refine ⟨c, v, hc, hv, hc2, ?_⟩
  rw [hd, Date_zero_Day_of_time later h]
  split_ifs <;> omega

/-- Witness of C12: 2019-01-31T23:00:00Z and 2019-03-01T01:00:00Z, where the
day step borrows the 28 days of February 2019. -/
theorem C12_days_witness :
    ∃ c v, borrowClock (segments (Unix 1548975600)) (segments (Unix 1551402000)) = some c
      ∧ borrow (segments (Unix 1548975600)) (segments (Unix 1551402000)) = some v
      ∧ c.end_[2]? = some
          (if (Unix 1551402000).clockSeconds < (Unix 1548975600).clockSeconds
            then (Unix 1551402000).Day - 1 else (Unix 1551402000).Day)
      ∧ v.days
          = (if 0 ≤ (if (Unix 1551402000).clockSeconds < (Unix 1548975600).clockSeconds
                then (Unix 1551402000).Day - 1 else (Unix 1551402000).Day)
                - (Unix 1548975600).Day
              then (if (Unix 1551402000).clockSeconds < (Unix 1548975600).clockSeconds
                then (Unix 1551402000).Day - 1 else (Unix 1551402000).Day)
                - (Unix 1548975600).Day
              else (if (Unix 1551402000).clockSeconds < (Unix 1548975600).clockSeconds
                then (Unix 1551402000).Day - 1 else (Unix 1551402000).Day)
                - (Unix 1548975600).Day
                + prevMonthLength (Unix 1551402000).Year (Unix 1551402000).Month) :=
  C12_days (Unix 1548975600) (Unix 1551402000) (Or.inl (by decide))

/-- C12 (counterexample): later = Unix -9223372028741760000 is
-292277022400-03-01T00:00:00Z, the first instant of the absolute seconds, and
earlier = Unix -9223372036854775808 is read as 292277026596-12-04T15:30:08Z.
Here d = 1 - 1 - 4 = -4 and L = 29, the length of February of the leap year
-292277022400, so that d + L = 25; the day before the first of the month leaves
the range of the absolute seconds, `time.Date` reads it as the 6th of a month,
and the days are -4 + 6 = 2. -/
theorem C12_days_at_the_absolute_epoch :
    (Unix (-9223372036854775808)).unixNano ≤ (Unix (-9223372028741760000)).unixNano
      ∧ segments (Unix (-9223372036854775808)) = [292277026596, 12, 4, 15, 30, 8]
      ∧ segments (Unix (-9223372028741760000)) = [-292277022400, 3, 1, 0, 0, 0]
      ∧ prevMonthLength (-292277022400) 3 = 29
      ∧ (Date (-292277022400) 3 0 0 0 0).Day = 6
      ∧ (borrow (segments (Unix (-9223372036854775808)))
            (segments (Unix (-9223372028741760000)))).map Vars.days = some 2
      ∧ (borrow (segments (Unix (-9223372036854775808)))
            (segments (Unix (-9223372028741760000)))).map Vars.days
          ≠ some (1 - 1 - 4 + prevMonthLength (-292277022400) 3)
      ∧ (breakdown (Unix (-9223372036854775808)) ⟨Unix (-9223372028741760000)⟩).map
            Vars.values = some [-584554048997, 3, 2, 8, 29, 52]
      ∧ differenceFromNow (Unix (-9223372036854775808)) ⟨Unix (-9223372028741760000)⟩
          = some "3 months, 2 days, 8 hours, 29 minutes, 52 seconds ago" := by
  decide


/-- Two instants of one calendar month are at most 30 days apart. -/
theorem days_close_of_same_month (a b : Time)
    (h : monthIndex a.Year a.Month = monthIndex b.Year b.Month) :
    -30 ≤ b.days - a.days ∧ b.days - a.days ≤ 30 := by
  have hday := Day_sub_of_same_month a b h
  obtain ⟨-, -, a3, a4, -⟩ := Time_calendar a
  obtain ⟨-, -, b3, b4, -⟩ := Time_calendar b
  omega

/-- C14 (amended): for two UTC instants earlier <= later of one calendar year
and month, made from 64-bit Unix seconds below 9223371974719179008 (the range
in which the internal seconds do not wrap), the years and the months are 0,
the days are the difference of the days of the month (less 1 when the hour
step borrowed) without a day borrow and are not negative, and 86400*days +
3600*hours + 60*minutes + seconds is the number of seconds from the second of
the earlier instant to the second of the later one. -/
theorem C14_same_month (earlier later : Time)
    (hr1 : earlier.extInRange) (hr2 : later.extInRange)
    (hu1 : earlier.offset = 0) (hu2 : later.offset = 0) (hle : earlier.sec ≤ later.sec)
    (hy : earlier.Year = later.Year) (hm : earlier.Month = later.Month) :
    ∃ v, borrow (segments earlier) (segments later) = some v
      ∧ v.years = 0 ∧ v.months = 0 ∧ 0 ≤ v.days
      ∧ v.days = (if later.clockSeconds < earlier.clockSeconds then later.Day - 1
          else later.Day) - earlier.Day
      ∧ 86400 * v.days + 3600 * v.hours + 60 * v.minutes + v.seconds
          = later.sec - earlier.sec := by
  obtain ⟨v, hv, -, -, -, hclock, hd, hmo, hye, -⟩ := borrow_times earlier later
  have hM : monthIndex earlier.Year earlier.Month = monthIndex later.Year later.Month := by
    rw [hy, hm]
  have hday := Day_sub_of_same_month earlier later hM
  have hclose := days_close_of_same_month earlier later hM
  have hT1 := clockSeconds_eq earlier
  have hT2 := clockSeconds_eq later
  obtain ⟨A1, hA1⟩ : ∃ A, A = earlier.abs := ⟨_, rfl⟩
  obtain ⟨A2, hA2⟩ : ∃ A, A = later.abs := ⟨_, rfl⟩
  have hdiff : A2 - A1 = later.sec - earlier.sec := by
    unfold Time.days at hclose
    rw [← hA1, ← hA2] at hclose
    rw [hA1, hA2]
    unfold Time.abs unixToAbsolute
    unfold Time.abs unixToAbsolute at hA1 hA2
    unfold Time.extInRange unixToInternal at hr1 hr2
    rw [hu1] at hA1 ⊢
    rw [hu2] at hA2 ⊢
    omega
  have hge : 0 ≤ A2 - A1 := by omega
  unfold Time.days at hday
  rw [← hA1, ← hA2] at hday
  rw [← hA1] at hT1
  rw [← hA2] at hT2
  rw [hT1, hT2] at hclock hd
  rw [hT1, hT2]
  generalize (Date later.Year later.Month 0 0 0 0).Day = D at hd
  clear hclose hA1 hA2 hr1 hr2 hM
  refine ⟨v, hv, ?_, ?_, ?_, ?_, ?_⟩
  · rw [hye, hm, hy]; split_ifs <;> omega
  · rw [hmo, hm]; split_ifs <;> omega
  · rw [hd]; split_ifs <;> omega
  · rw [hd]; split_ifs <;> omega
  · have e : 3600 * v.hours + 60 * v.minutes + v.seconds
        = (A2 % 86400 - A1 % 86400) % 86400 := hclock
    rw [hd, ← hdiff]
    split_ifs <;> omega

/-- Witness of C14: the fourth case of `TestDiffstring`, 2019-09-21T22:47:52Z
and 2019-09-21T23:56:59Z, with the text that `differenceFromNow` returns. -/
theorem C14_same_month_witness :
    (∃ v, borrow (segments (Unix 1569106072)) (segments (Unix 1569110219)) = some v
      ∧ v.years = 0 ∧ v.months = 0 ∧ 0 ≤ v.days
      ∧ v.days = (if (Unix 1569110219).clockSeconds < (Unix 1569106072).clockSeconds
          then (Unix 1569110219).Day - 1 else (Unix 1569110219).Day) - (Unix 1569106072).Day
      ∧ 86400 * v.days + 3600 * v.hours + 60 * v.minutes + v.seconds
          = (Unix 1569110219).sec - (Unix 1569106072).sec)
      ∧ differenceFromNow (Unix 1569106072) ⟨Unix 1569110219⟩
          = some "1 hour, 9 minutes, 7 seconds ago" :=
  ⟨C14_same_month (Unix 1569106072) (Unix 1569110219) ⟨by decide, by decide⟩
      ⟨by decide, by decide⟩ rfl rfl (by decide) (by decide) (by decide), by decide⟩

/-- C14 (counterexample): earlier = Unix -9223372036854775808 is read as
292277026596-12-04T15:30:08Z, because its absolute seconds wrap, and later =
Unix 9223372036854775807 is 292277026596-12-04T15:30:07Z: the same year and
month. Taken in this order, the day step borrows the 30 days of November and
the values are 0, 0, 29, 23, 59, 59; `differenceFromNow` itself, for then =
earlier and now = later, takes the instants in the other order, its values are
0, 0, 0, 0, 0, 1, and the result is "1 second in the future". Neither adds up to
the 18446744073709551615 seconds between the two instants. -/
theorem C14_same_month_across_the_wrap :
    (Unix (-9223372036854775808)).sec ≤ (Unix 9223372036854775807).sec
      ∧ (Unix (-9223372036854775808)).Year = (Unix 9223372036854775807).Year
      ∧ (Unix (-9223372036854775808)).Month = (Unix 9223372036854775807).Month
      ∧ segments (Unix (-9223372036854775808)) = [292277026596, 12, 4, 15, 30, 8]
      ∧ segments (Unix 9223372036854775807) = [292277026596, 12, 4, 15, 30, 7]
      ∧ (borrow (segments (Unix (-9223372036854775808)))
            (segments (Unix 9223372036854775807))).map Vars.values
          = some [0, 0, 29, 23, 59, 59]
      ∧ (86400 * 29 + 3600 * 23 + 60 * 59 + 59 : Int)
          ≠ (Unix 9223372036854775807).sec - (Unix (-9223372036854775808)).sec
      ∧ (4 - 1 - 4 : Int) < 0
      ∧ (breakdown (Unix (-9223372036854775808)) ⟨Unix 9223372036854775807⟩).map
            Vars.values = some [0, 0, 0, 0, 0, 1]
      ∧ differenceFromNow (Unix (-9223372036854775808)) ⟨Unix 9223372036854775807⟩
          = some "1 second in the future"
      ∧ (86400 * 0 + 3600 * 0 + 60 * 0 + 1 : Int)
          ≠ (Unix 9223372036854775807).sec - (Unix (-9223372036854775808)).sec := by
  decide

/-- C15 (amended): when the later instant does not lie in March of year
-292277022400, the first month of the absolute seconds, the days lie between
-3 and 30; -3 is the value for 2019-01-31T23:00:00Z and 2019-03-01T01:00:00Z, 30
the value for 2019-01-01T00:00:00Z and 2019-01-31T00:00:00Z. -/
theorem C15_days_bounds :
    (∀ earlier later : Time, (later.Year ≠ -292277022400 ∨ later.Month ≠ 3) →
        ∃ v, borrow (segments earlier) (segments later) = some v
          ∧ -3 ≤ v.days ∧ v.days ≤ 30)
      ∧ ((Unix 1548975600).unixNano ≤ (Unix 1551402000).unixNano
          ∧ segments (Unix 1548975600) = [2019, 1, 31, 23, 0, 0]
          ∧ segments (Unix 1551402000) = [2019, 3, 1, 1, 0, 0]
          ∧ (borrow (segments (Unix 1548975600)) (segments (Unix 1551402000))).map Vars.days
              = some (-3))
      ∧ ((Unix 1546300800).unixNano ≤ (Unix 1548892800).unixNano
          ∧ segments (Unix 1546300800) = [2019, 1, 1, 0, 0, 0]
          ∧ segments (Unix 1548892800) = [2019, 1, 31, 0, 0, 0]
          ∧ (borrow (segments (Unix 1546300800)) (segments (Unix 1548892800))).map Vars.days
              = some 30) := by
  refine ⟨?_, by decide, by decide⟩
  intro earlier later h
  obtain ⟨v, hv, -, -, -, -, hd, -⟩ := borrow_times earlier later
  obtain ⟨-, -, a3, a4, -⟩ := Time_calendar earlier
  obtain ⟨b1, b2, b3, b4, -⟩ := Time_calendar later
  have hL := monthStart_step (monthIndex later.Year later.Month - 1)
  rw [sub_add_cancel, monthStart_sub_prev later.Year later.Month b1 b2] at hL
  rw [Date_zero_Day_of_time later h] at hd
  refine ⟨v, hv, ?_, ?_⟩
  · rw [hd]; split_ifs <;> omega
  · rw [hd]; split_ifs <;> omega

/-- Witness of C15: the first and the last instant of `TestDiffstring`. -/
theorem C15_days_bounds_witness :
    ∃ v, borrow (segments (Unix 1169106072)) (segments (Unix 1569110219)) = some v
      ∧ -3 ≤ v.days ∧ v.days ≤ 30 :=
  C15_days_bounds.1 (Unix 1169106072) (Unix 1569110219) (Or.inl (by decide))

/-- C15 (counterexample): later = Unix -9223372028741760000 is
-292277022400-03-01T00:00:00Z, the first instant of the absolute seconds, and
earlier = Unix -9223372028742307216 is read as 292277026853-12-31T23:00:00Z.
The day before the first of the month leaves the range of the absolute
seconds, `time.Date` reads it as the 6th of a month, and the days are
1 - 1 - 31 + 6 = -25, below -3. -/
theorem C15_days_below_the_bound :
    (Unix (-9223372028742307216)).unixNano ≤ (Unix (-9223372028741760000)).unixNano
      ∧ segments (Unix (-9223372028742307216)) = [292277026853, 12, 31, 23, 0, 0]
      ∧ segments (Unix (-9223372028741760000)) = [-292277022400, 3, 1, 0, 0, 0]
      ∧ (borrow (segments (Unix (-9223372028742307216)))
            (segments (Unix (-9223372028741760000)))).map Vars.days = some (-25)
      ∧ ¬ ((-3 : Int) ≤ -25)
      ∧ (breakdown (Unix (-9223372028742307216)) ⟨Unix (-9223372028741760000)⟩).map
            Vars.values = some [-584554049254, 3, -25, 1, 0, 0]
      ∧ differenceFromNow (Unix (-9223372028742307216)) ⟨Unix (-9223372028741760000)⟩
          = some "3 months, 1 hour ago" := by
  decide

/-! ## Lemmas for the claim on the empty phrase -/

/-- Between two instants of one zone whose absolute seconds do not wrap and
whose seconds differ, one of the six values is positive. -/
theorem borrow_positive (earlier later : Time)
    (hr1 : earlier.absInRange) (hr2 : later.absInRange)
    (hz : earlier.offset = later.offset) (hlt : earlier.sec < later.sec) :
    ∃ v, borrow (segments earlier) (segments later) = some v
      ∧ (0 < v.years ∨ 0 < v.months ∨ 0 < v.days ∨ 0 < v.hours ∨ 0 < v.minutes
          ∨ 0 < v.seconds) := by
  obtain ⟨v, hv, hs, hmi, hh, hclock, hd, hmo, hye, -⟩ := borrow_times earlier later
  refine ⟨v, hv, ?_⟩
  have hT1 := clockSeconds_eq earlier
  have hT2 := clockSeconds_eq later
  have ha1 := abs_of_absInRange earlier hr1
  have ha2 := abs_of_absInRange later hr2
  have habs : earlier.abs < later.abs := by
    rw [ha1, ha2]
    omega
  have hd1 := days_of_absInRange earlier hr1
  have hd2 := days_of_absInRange later hr2
  rw [hT1, hT2] at hclock hd
  by_cases hT : later.abs % 86400 = earlier.abs % 86400
  · have hdays : earlier.days < later.days := by
      rw [hd1, hd2]
      rw [ha1, ha2] at hT
      unfold unixToAbsolute at hT
      omega
    have hmono := monthIndex_mono earlier later (le_of_lt hdays)
    by_cases hM : monthIndex earlier.Year earlier.Month = monthIndex later.Year later.Month
    · have hday := Day_sub_of_same_month earlier later hM
      right; right; left
      rw [hd, hT]
      simp only [lt_self_iff_false, if_false]
      split_ifs <;> omega
    · obtain ⟨a1, a2, -⟩ := Time_calendar earlier
      obtain ⟨b1, b2, -⟩ := Time_calendar later
      unfold monthIndex at hmono hM
      have h12 : 0 < 12 * v.years + v.months := by
        rw [hmo, hye]
        split_ifs <;> omega
      omega
  · have hpos : 0 < 3600 * v.hours + 60 * v.minutes + v.seconds := by
      rw [hclock]
      omega
    omega

theorem fragments_ne_nil (v : Vars)
    (h : 0 < v.years ∨ 0 < v.months ∨ 0 < v.days ∨ 0 < v.hours ∨ 0 < v.minutes
      ∨ 0 < v.seconds) :
    fragments (labels.zip v.values) ≠ [] := by
  simp only [fragments, labels, Vars.values, List.zip_cons_cons, List.zip_nil_right, ne_eq,
    List.map_eq_nil_iff, List.filter_eq_nil_iff, List.mem_cons, List.mem_singleton,
    decide_eq_true_eq, not_forall]
  rcases h with h | h | h | h | h | h
  · exact ⟨("year", v.years), by simp, by simpa using h⟩
  · exact ⟨("month", v.months), by simp, by simpa using h⟩
  · exact ⟨("day", v.days), by simp, by simpa using h⟩
  · exact ⟨("hour", v.hours), by simp, by simpa using h⟩
  · exact ⟨("minute", v.minutes), by simp, by simpa using h⟩
  · exact ⟨("second", v.seconds), by simp, by simpa using h⟩

theorem fragment_data_ne_nil (value : Int) (label : String) :
    (fragment value label).data ≠ [] := by
  simp [fragment]

theorem intercalate_go_data (sep : String) (rest : List String) (acc : String) :
    ∃ tail, (String.intercalate.go acc sep rest).data = acc.data ++ tail := by
  induction rest generalizing acc with
  | nil => exact ⟨[], by simp [String.intercalate.go]⟩
  | cons x xs ih =>
    obtain ⟨tail, ht⟩ := ih (acc ++ sep ++ x)
    exact ⟨sep.data ++ x.data ++ tail, by
      simp [String.intercalate.go, ht, List.append_assoc]⟩

/-- The phrase of a list of fragments that is not empty is not empty. -/
theorem intercalate_fragments_data_ne_nil (pairs : List (String × Int))
    (h : fragments pairs ≠ []) : (", ".intercalate (fragments pairs)).data ≠ [] := by
  unfold fragments at *
  cases hf : pairs.filter (fun p => decide (p.2 > 0)) with
  | nil => simp [hf] at h
  | cons p ps =>
    simp only [List.map_cons, String.intercalate]
    obtain ⟨tail, ht⟩ := intercalate_go_data ", " (ps.map (fun p => fragment p.2 p.1))
      (fragment p.2 p.1)
    rw [ht]
    intro hnil
    exact fragment_data_ne_nil p.2 p.1 (List.append_eq_nil.mp hnil).1

theorem append_ne_of_data_ne_nil (r x : String) (h : r.data ≠ []) : r ++ x ≠ x := by
  intro he
  have h2 := congrArg String.data he
  rw [String.data_append, List.append_left_eq_self] at h2
  exact h h2

theorem append_future_ne_ago (r : String) : r ++ " in the future" ≠ " ago" := by
  intro he
  have h2 := congrArg (fun s => s.data.length) he
  simp [String.data_append] at h2

theorem append_ago_ne_future (r : String) : r ++ " ago" ≠ " in the future" := by
  intro he
  have h := HasSuffix_ago_future r
  rw [he] at h
  revert h
  decide

/-- C13 (amended): for two instants of one zone that are at least 1 second
apart and whose internal and absolute seconds do not wrap (in UTC: Unix seconds
from -9223372028741760000 to 9223371974719179007), one of the six values is
positive, so a fragment is emitted and the result is neither the bare " ago"
nor the bare " in the future". -/
theorem C13_some_field_positive (then_ : Time) (c : clock)
    (he1 : then_.extInRange) (he2 : c.Now.extInRange)
    (ha1 : then_.absInRange) (ha2 : c.Now.absInRange)
    (hv1 : then_.valid) (hv2 : c.Now.valid) (hz : then_.offset = c.Now.offset)
    (h : 1000000000 ≤ c.Now.unixNano - then_.unixNano
      ∨ c.Now.unixNano - then_.unixNano ≤ -1000000000) :
    ∃ v s, breakdown then_ c = some v
      ∧ (0 < v.years ∨ 0 < v.months ∨ 0 < v.days ∨ 0 < v.hours ∨ 0 < v.minutes
          ∨ 0 < v.seconds)
      ∧ fragments (labels.zip v.values) ≠ []
      ∧ differenceFromNow then_ c = some s ∧ s ≠ " ago" ∧ s ≠ " in the future" := by
  rcases h with h | h
  · have hn : ¬ (c.Now.Sub then_ > -1000000000 ∧ c.Now.Sub then_ < 1000000000) := by
      rw [Sub_lt_second_iff _ _ he2 he1 hv2 hv1]
      omega
    have hp : c.Now.Sub then_ > 0 := (Sub_pos_iff _ _ he2 he1 hv2 hv1).mpr (by omega)
    obtain ⟨v, hb, hd⟩ := differenceFromNow_eq then_ c hn
    rw [if_pos hp] at hd
    have hsec : then_.sec < c.Now.sec := by
      unfold Time.valid Time.unixNano at *
      omega
    obtain ⟨w, hw, hpos⟩ := borrow_positive then_ c.Now ha1 ha2 hz hsec
    have hbw : breakdown then_ c = some w := by
      simp only [breakdown, direction, hp, decide_True, if_true]
      exact hw
    have hvw : v = w := Option.some.inj (hb.symm.trans hbw)
    subst hvw
    have hne := fragments_ne_nil v hpos
    have hdata := intercalate_fragments_data_ne_nil _ hne
    exact ⟨v, _, hb, hpos, hne, hd, append_ne_of_data_ne_nil _ _ hdata,
      append_ago_ne_future _⟩
  · have hn : ¬ (c.Now.Sub then_ > -1000000000 ∧ c.Now.Sub then_ < 1000000000) := by
      rw [Sub_gt_neg_second_iff _ _ he2 he1 hv2 hv1]
      omega
    have hp : ¬ c.Now.Sub then_ > 0 := by
      rw [Sub_pos_iff _ _ he2 he1 hv2 hv1]
      omega
    obtain ⟨v, hb, hd⟩ := differenceFromNow_eq then_ c hn
    rw [if_neg hp] at hd
    have hsec : c.Now.sec < then_.sec := by
      unfold Time.valid Time.unixNano at *
      omega
    obtain ⟨w, hw, hpos⟩ := borrow_positive c.Now then_ ha2 ha1 hz.symm hsec
    have hbw : breakdown then_ c = some w := by
      simp only [breakdown, direction, hp, decide_False]
      exact hw
    have hvw : v = w := Option.some.inj (hb.symm.trans hbw)
    subst hvw
    have hne := fragments_ne_nil v hpos
    have hdata := intercalate_fragments_data_ne_nil _ hne
    exact ⟨v, _, hb, hpos, hne, hd, append_future_ne_ago _,
      append_ne_of_data_ne_nil _ _ hdata⟩

/-- Witness of C13: 30 seconds before the instant of the test clock. -/
theorem C13_some_field_positive_witness :
    ∃ v s, breakdown (Unix 1569110189) ⟨Unix 1569110219⟩ = some v
      ∧ (0 < v.years ∨ 0 < v.months ∨ 0 < v.days ∨ 0 < v.hours ∨ 0 < v.minutes
          ∨ 0 < v.seconds)
      ∧ fragments (labels.zip v.values) ≠ []
      ∧ differenceFromNow (Unix 1569110189) ⟨Unix 1569110219⟩ = some s
      ∧ s ≠ " ago" ∧ s ≠ " in the future" :=
  C13_some_field_positive (Unix 1569110189) ⟨Unix 1569110219⟩
    ⟨by decide, by decide⟩ ⟨by decide, by decide⟩ ⟨by decide, by decide⟩
    ⟨by decide, by decide⟩ ⟨by decide, by decide⟩ ⟨by decide, by decide⟩ rfl
    (Or.inl (by decide))

/-- C13 (counterexample): then = Unix 9223371986468184000 is
292277025000-03-29T12:00:00Z and now = Unix 1803902400 is 2027-03-01T12:00:00Z.
The internal seconds of then wrap, so that `now.Sub(then)` is positive; the
values are -292277022973, 0, 0, 0, 0, 0, none is positive, and the result is
the bare " ago". For then = Unix -9223372036752663616 the absolute seconds wrap,
then is read as 292277026600-03-01T12:00:00Z, and the result is the bare " ago"
again. -/
theorem C13_bare_ago_by_the_wrap :
    (Unix 9223371986468184000).valid ∧ (Unix 1803902400).valid
      ∧ (Unix 9223371986468184000).offset = (Unix 1803902400).offset
      ∧ (Unix 1803902400).unixNano - (Unix 9223371986468184000).unixNano ≤ -1000000000
      ∧ segments (Unix 9223371986468184000) = [292277025000, 3, 29, 12, 0, 0]
      ∧ segments (Unix 1803902400) = [2027, 3, 1, 12, 0, 0]
      ∧ (breakdown (Unix 9223371986468184000) ⟨Unix 1803902400⟩).map Vars.values
          = some [-292277022973, 0, 0, 0, 0, 0]
      ∧ differenceFromNow (Unix 9223371986468184000) ⟨Unix 1803902400⟩ = some " ago"
      ∧ 1000000000 ≤ (Unix 1803902400).unixNano - (Unix (-9223372036752663616)).unixNano
      ∧ segments (Unix (-9223372036752663616)) = [292277026600, 3, 1, 12, 0, 0]
      ∧ (breakdown (Unix (-9223372036752663616)) ⟨Unix 1803902400⟩).map Vars.values
          = some [-292277024573, 0, 0, 0, 0, 0]
      ∧ differenceFromNow (Unix (-9223372036752663616)) ⟨Unix 1803902400⟩ = some " ago" := by
  refine ⟨⟨by decide, by decide⟩, ⟨by decide, by decide⟩, rfl, by decide, by decide,
    by decide, by decide, by decide, by decide, by decide, by decide, by decide⟩


end When
